import Mathlib

/-!
# Bedrock execution core — shallow embedding and verification

This file embeds the deterministic block-execution engine of the Bedrock
repository (crates `bedrock-primitives`, `bedrock-engine`, and the sandbox
host state) into Lean 4 and proves properties of the embedded definitions.

Conventions of the embedding:
* Rust `u8`/`u32`/`u64` values are `Nat`s; widths matter only at overflow
  or encoding points, where an explicit `% 2^w` / bound check appears.
* Rust `Vec<u8>` is `List Nat` (each element intended `< 256`; theorems that
  need the bound carry it as a hypothesis).
* Rust `BTreeMap` is a by-key strictly-sorted association list; the sorted
  order is byte-lexicographic, matching `Ord` on `Vec<u8>`.
* Fallible Rust functions return `Except ExecError _`.  Functions that
  mutate `&mut self` return the updated value; where Rust keeps mutations
  made before an error (the gas meter inside a failing transaction), the
  embedding threads the state through the error path explicitly.
* The BLAKE3 hash and the Ed25519 library verifier are external crates,
  not code of this repository; they enter the embedding as explicit
  function parameters (`H`, `verifyFn`, `fromBytesFn`/`libVerifyFn`).
-/

/-! ## Bytes and little-endian integers (`primitives/src/types.rs`) -/

/-- A byte string: Rust `Vec<u8>` / `&[u8]` as a list of naturals. -/
abbrev Bytes : Type := List Nat

/-- Largest `u64` value. -/
def U64_MAX : Nat := 2 ^ 64 - 1

/-- `ZERO_HASH`: 32 zero bytes (`types.rs`). -/
def ZERO_HASH : Bytes := List.replicate 32 0

/-- Value of a little-endian byte list. -/
def leVal : Bytes → Nat
  | [] => 0
  | b :: rest => b + 256 * leVal rest

/-- `n`-byte little-endian encoding of `v` (encodes `v % 2^(8n)`). -/
def toLe : Nat → Nat → Bytes
  | 0, _ => []
  | n + 1, v => v % 256 :: toLe n (v / 256)

/-- `u64_to_le_bytes` (`types.rs`): 8-byte little-endian encoding. -/
def u64_to_le_bytes (v : Nat) : Bytes := toLe 8 v

/-- `u64_from_le_bytes` (`types.rs`): `None` if fewer than 8 bytes, else the
value of the first 8 bytes little-endian. -/
def u64_from_le_bytes (bytes : Bytes) : Option Nat :=
  if bytes.length < 8 then none else some (leVal (bytes.take 8))

/-- Byte-lexicographic strict order on byte strings, mirroring the derived
`Ord` on Rust `Vec<u8>` used by `BTreeMap` keys. -/
def bytesLt : Bytes → Bytes → Bool
  | [], [] => false
  | [], _ :: _ => true
  | _ :: _, [] => false
  | a :: as, b :: bs => if a < b then true else if b < a then false else bytesLt as bs

/-! ## Error taxonomy (`primitives/src/error.rs`) -/

/-- Host API error codes (`error.rs`, values normative). -/
inductive ErrorCode where
  | Ok
  | BadPointer
  | InvalidEncoding
  | KeyTooLarge
  | ValueTooLarge
  | WriteLimit
  | EventLimit
  | OutOfGas
  | SigInvalid
  | CryptoFailed
  | Internal
deriving DecidableEq, Repr

/-- `ErrorCode::as_i32`: the numeric value of each code. -/
def ErrorCode.as_i32 : ErrorCode → Nat
  | .Ok => 0
  | .BadPointer => 1
  | .InvalidEncoding => 2
  | .KeyTooLarge => 3
  | .ValueTooLarge => 4
  | .WriteLimit => 5
  | .EventLimit => 6
  | .OutOfGas => 7
  | .SigInvalid => 8
  | .CryptoFailed => 9
  | .Internal => 10

/-- Execution engine error type (`error.rs`). -/
inductive ExecError where
  | hostError (code : ErrorCode)
  | serializationError (msg : String)
  | invalidApiVersion (expected got : Nat)
  | invalidBlock (msg : String)
  | outOfGas (limit used : Nat)
  | merkleError (msg : String)
deriving DecidableEq, Repr

/-! ## Gas (`primitives/src/gas.rs`) -/

def G_STATE_GET : Nat := 200
def G_STATE_SET : Nat := 500
def G_STATE_DEL : Nat := 300
def G_PER_BYTE : Nat := 3
def G_EMIT_EVENT : Nat := 100
def G_HASH_BLAKE3 : Nat := 50
def G_VERIFY_ED25519 : Nat := 2000
def G_LOG : Nat := 10
def G_GET_CONTEXT : Nat := 50
def G_GAS_REMAINING : Nat := 5
def G_HOST_FREE : Nat := 5

/-- `gas_cost_state_get` (`gas.rs`).  The Rust saturating ops cannot reach
`u64::MAX` for any representable input, so plain `Nat` arithmetic agrees. -/
def gas_cost_state_get (key_len : Nat) : Nat := G_STATE_GET + key_len * G_PER_BYTE

/-- `gas_cost_state_set` (`gas.rs`). -/
def gas_cost_state_set (key_len val_len : Nat) : Nat :=
  G_STATE_SET + (key_len + val_len) * G_PER_BYTE

/-- `gas_cost_state_delete` (`gas.rs`). -/
def gas_cost_state_delete (key_len : Nat) : Nat := G_STATE_DEL + key_len * G_PER_BYTE

/-- `GasMeter` (`gas.rs`): a `(limit, consumed)` counter. -/
structure GasMeter where
  limit : Nat
  consumed : Nat
deriving DecidableEq, Repr

/-- `GasMeter::new`. -/
def GasMeter.new (limit : Nat) : GasMeter := { limit := limit, consumed := 0 }

/-- `GasMeter::consume` (`gas.rs` lines 106–118): `checked_add` then compare
against the limit; on failure the meter is unchanged and the error carries
`consumed.saturating_add(amount)` as `used`. -/
def GasMeter.consume (m : GasMeter) (amount : Nat) : Except ExecError GasMeter :=
  if m.consumed + amount ≤ U64_MAX ∧ m.consumed + amount ≤ m.limit then
    Except.ok { m with consumed := m.consumed + amount }
  else
    Except.error (ExecError.outOfGas m.limit (min (m.consumed + amount) U64_MAX))

/-- `GasMeter::remaining`: saturating subtraction. -/
def GasMeter.remaining (m : GasMeter) : Nat := m.limit - m.consumed

/-- `GasMeter::is_exhausted`: `consumed >= limit`. -/
def GasMeter.is_exhausted (m : GasMeter) : Bool := m.limit ≤ m.consumed

/-! ## State overlay (`primitives/src/state.rs`)

`BTreeMap<Vec<u8>, Option<Vec<u8>>>` is embedded as a by-key sorted
association list.  `sortedInsert`/`sortedRemove` are the embedding of
`BTreeMap::insert`/`remove` on such lists. -/

/-- Insert into a by-key sorted association list, replacing an existing
entry for an equal key (`BTreeMap::insert`). -/
def sortedInsert {α : Type} (k : Bytes) (v : α) :
    List (Bytes × α) → List (Bytes × α)
  | [] => [(k, v)]
  | (k', v') :: rest =>
    if bytesLt k k' then (k, v) :: (k', v') :: rest
    else if k = k' then (k, v) :: rest
    else (k', v') :: sortedInsert k v rest

/-- Remove a key from an association list (`BTreeMap::remove`). -/
def sortedRemove {α : Type} (k : Bytes) :
    List (Bytes × α) → List (Bytes × α)
  | [] => []
  | (k', v') :: rest =>
    if k = k' then rest else (k', v') :: sortedRemove k rest

/-- Association-list lookup (`BTreeMap::get`). -/
def alLookup {α : Type} (k : Bytes) : List (Bytes × α) → Option α
  | [] => none
  | (k', v') :: rest => if k = k' then some v' else alLookup k rest

/-- The by-key strict sortedness invariant of a `BTreeMap` association list. -/
def SortedByKey {α : Type} : List (Bytes × α) → Prop
  | [] => True
  | (k, _) :: rest =>
    (∀ p ∈ rest, bytesLt k p.1 = true) ∧ SortedByKey rest

/-- `StateOverlay` (`state.rs`): buffered writes (`some v` = set, `none` =
tombstone) plus the total byte accounting. -/
structure StateOverlay where
  writes : List (Bytes × Option Bytes)
  total_write_bytes : Nat
deriving DecidableEq, Repr

/-- `StateOverlay::new`. -/
def StateOverlay.new : StateOverlay := { writes := [], total_write_bytes := 0 }

/-- Byte contribution of an overlay entry already present for `key`. -/
def overlayPrevBytes (key : Bytes) (prev : Option Bytes) : Nat :=
  key.length + (match prev with | some v => v.length | none => 0)

/-- `StateOverlay::set` (`state.rs` lines 50–63): subtract the previous
entry's contribution, add `key_len + value_len` (saturating), insert. -/
def StateOverlay.set (o : StateOverlay) (key value : Bytes) : StateOverlay :=
  let new_bytes := key.length + value.length
  let afterSub :=
    match alLookup key o.writes with
    | some prev => o.total_write_bytes - overlayPrevBytes key prev
    | none => o.total_write_bytes
  { writes := sortedInsert key (some value) o.writes
    total_write_bytes := min (afterSub + new_bytes) U64_MAX }

/-- `StateOverlay::delete` (`state.rs` lines 69–82): subtract the previous
entry's contribution, count the key bytes, record a tombstone. -/
def StateOverlay.delete (o : StateOverlay) (key : Bytes) : StateOverlay :=
  let afterSub :=
    match alLookup key o.writes with
    | some prev => o.total_write_bytes - overlayPrevBytes key prev
    | none => o.total_write_bytes
  { writes := sortedInsert key none o.writes
    total_write_bytes := min (afterSub + key.length) U64_MAX }

/-- `OverlayResult` (`state.rs`). -/
inductive OverlayResult where
  | Found (v : Bytes)
  | Deleted
  | NotInOverlay
deriving DecidableEq, Repr

/-- `StateOverlay::get` (`state.rs`). -/
def StateOverlay.get (o : StateOverlay) (key : Bytes) : OverlayResult :=
  match alLookup key o.writes with
  | some (some value) => OverlayResult.Found value
  | some none => OverlayResult.Deleted
  | none => OverlayResult.NotInOverlay

/-- `StateOverlay::is_empty`. -/
def StateOverlay.is_empty (o : StateOverlay) : Bool := o.writes.isEmpty

/-! ## UTF-8 validity

Rust `String` fields are embedded as their UTF-8 byte strings; the codec's
`String::from_utf8` check (`codec.rs` `read_string`) becomes `validUtf8`,
the standard RFC 3629 well-formedness test (the exact byte-level test
`String::from_utf8` performs). -/

/-- UTF-8 continuation byte test: `0x80..=0xBF`. -/
def utf8Cont (b : Nat) : Bool := 0x80 ≤ b && b ≤ 0xBF

/-- RFC 3629 UTF-8 well-formedness of a byte string. -/
def validUtf8 : Bytes → Bool
  | [] => true
  | b :: rest =>
    if b ≤ 0x7F then validUtf8 rest
    else if 0xC2 ≤ b && b ≤ 0xDF then
      match rest with
      | b1 :: r => utf8Cont b1 && validUtf8 r
      | [] => false
    else if b = 0xE0 then
      match rest with
      | b1 :: b2 :: r => (0xA0 ≤ b1 && b1 ≤ 0xBF) && utf8Cont b2 && validUtf8 r
      | _ => false
    else if (0xE1 ≤ b && b ≤ 0xEC) || (b = 0xEE || b = 0xEF) then
      match rest with
      | b1 :: b2 :: r => utf8Cont b1 && utf8Cont b2 && validUtf8 r
      | _ => false
    else if b = 0xED then
      match rest with
      | b1 :: b2 :: r => (0x80 ≤ b1 && b1 ≤ 0x9F) && utf8Cont b2 && validUtf8 r
      | _ => false
    else if b = 0xF0 then
      match rest with
      | b1 :: b2 :: b3 :: r =>
        (0x90 ≤ b1 && b1 ≤ 0xBF) && utf8Cont b2 && utf8Cont b3 && validUtf8 r
      | _ => false
    else if 0xF1 ≤ b && b ≤ 0xF3 then
      match rest with
      | b1 :: b2 :: b3 :: r => utf8Cont b1 && utf8Cont b2 && utf8Cont b3 && validUtf8 r
      | _ => false
    else if b = 0xF4 then
      match rest with
      | b1 :: b2 :: b3 :: r =>
        (0x80 ≤ b1 && b1 ≤ 0x8F) && utf8Cont b2 && utf8Cont b3 && validUtf8 r
      | _ => false
    else false

/-! ## Execution boundary types (`primitives/src/execution.rs`) -/

/-- `ExecutionLimits` (`execution.rs`). -/
structure ExecutionLimits where
  gas_limit : Nat
  max_events : Nat
  max_write_bytes : Nat
deriving DecidableEq, Repr

/-- `ExecutionRequest` (`execution.rs`). -/
structure ExecutionRequest where
  api_version : Nat
  chain_id : Bytes
  block_height : Nat
  block_time : Nat
  block_hash : Bytes
  prev_state_root : Bytes
  transactions : List Bytes
  limits : ExecutionLimits
  execution_seed : Option Bytes
deriving DecidableEq, Repr

/-- `ExecutionStatus` (`execution.rs`, numeric tags normative). -/
inductive ExecutionStatus where
  | Ok
  | InvalidBlock
  | ExecutionError
  | OutOfGas
deriving DecidableEq, Repr

/-- `ExecutionStatus` numeric tag (the `repr(u8)` value). -/
def ExecutionStatus.toU8 : ExecutionStatus → Nat
  | .Ok => 0
  | .InvalidBlock => 1
  | .ExecutionError => 2
  | .OutOfGas => 3

/-- `ExecutionStatus::from_u8`. -/
def ExecutionStatus.from_u8 (v : Nat) : Option ExecutionStatus :=
  match v with
  | 0 => some .Ok
  | 1 => some .InvalidBlock
  | 2 => some .ExecutionError
  | 3 => some .OutOfGas
  | _ => none

/-- `Receipt` (`execution.rs`). -/
structure Receipt where
  tx_index : Nat
  success : Bool
  gas_used : Nat
  result_code : Nat
  return_data : Bytes
deriving DecidableEq, Repr

/-- `EventAttribute` (`execution.rs`); `key` is the UTF-8 bytes of the Rust
`String`. -/
structure EventAttribute where
  key : Bytes
  value : Bytes
deriving DecidableEq, Repr

/-- `Event` (`execution.rs`); `event_type` is UTF-8 bytes. -/
structure Event where
  tx_index : Nat
  event_type : Bytes
  attributes : List EventAttribute
deriving DecidableEq, Repr

/-- `LogLine` (`execution.rs`); `message` is UTF-8 bytes. -/
structure LogLine where
  level : Nat
  message : Bytes
deriving DecidableEq, Repr

/-- `ExecutionResponse` (`execution.rs`). -/
structure ExecutionResponse where
  api_version : Nat
  status : ExecutionStatus
  new_state_root : Bytes
  gas_used : Nat
  receipts : List Receipt
  events : List Event
  logs : List LogLine
deriving DecidableEq, Repr

/-- `ExecutionResponse::failure` (`execution.rs`). -/
def ExecutionResponse.failure (api_version : Nat) (status : ExecutionStatus)
    (prev_state_root : Bytes) : ExecutionResponse :=
  { api_version := api_version
    status := status
    new_state_root := prev_state_root
    gas_used := 0
    receipts := []
    events := []
    logs := [] }

/-- `ExecutionContext` (`execution.rs`). -/
structure ExecutionContext where
  chain_id : Bytes
  block_height : Nat
  block_time : Nat
  block_hash : Bytes
  gas_limit : Nat
  max_events : Nat
  max_write_bytes : Nat
  api_version : Nat
  execution_seed : Option Bytes
deriving DecidableEq, Repr

/-- `ExecutionContext::from_request` (`execution.rs`). -/
def ExecutionContext.from_request (req : ExecutionRequest) : ExecutionContext :=
  { chain_id := req.chain_id
    block_height := req.block_height
    block_time := req.block_time
    block_hash := req.block_hash
    gas_limit := req.limits.gas_limit
    max_events := req.limits.max_events
    max_write_bytes := req.limits.max_write_bytes
    api_version := req.api_version
    execution_seed := req.execution_seed }

/-- `API_VERSION` (`types.rs`). -/
def API_VERSION : Nat := 1

/-- `MAX_KEY_LEN` (`types.rs`). -/
def MAX_KEY_LEN : Nat := 256

/-- `MAX_VALUE_LEN` (`types.rs`). -/
def MAX_VALUE_LEN : Nat := 65536

/-! ## Sparse Merkle tree (`primitives/src/merkle.rs`)

`H` stands for the external BLAKE3 hash (`blake3::hash`, 32-byte output),
which is not code of this repository; every definition and theorem is
parametric in it. -/

/-- `hash_leaf` (`merkle.rs`): `H(0x00 || key_len_le32 || key || value)`. -/
def hash_leaf (H : Bytes → Bytes) (key value : Bytes) : Bytes :=
  H (0 :: (toLe 4 key.length ++ key ++ value))

/-- `hash_internal` (`merkle.rs`): `H(0x01 || left || right)`. -/
def hash_internal (H : Bytes → Bytes) (left right : Bytes) : Bytes :=
  H (1 :: (left ++ right))

/-- One pairing pass of `compute_root_from_leaves`: adjacent nodes are
combined; an odd trailing node is promoted unchanged. -/
def pairUp (H : Bytes → Bytes) : List Bytes → List Bytes
  | [] => []
  | [x] => [x]
  | x :: y :: rest => hash_internal H x y :: pairUp H rest

/-- The `while` pairing loop of `compute_root_from_leaves`, bounded by an
explicit pass budget (each pass at least halves the level size, so
`leaves.length` passes always suffice; the bound keeps the recursion
structural). -/
def buildLevels (H : Bytes → Bytes) : Nat → List Bytes → List Bytes
  | 0, l => l
  | fuel + 1, l => if l.length ≤ 1 then l else buildLevels H fuel (pairUp H l)

/-- `compute_root_from_leaves` (`merkle.rs` lines 225–253): empty input
gives the zero hash; a single leaf is the root; otherwise run pairing
passes until one node remains and return it (`current_level[0]`). -/
def compute_root_from_leaves (H : Bytes → Bytes) (leaves : List Bytes) : Bytes :=
  match leaves with
  | [] => ZERO_HASH
  | [x] => x
  | l => (buildLevels H l.length l).headD ZERO_HASH

/-- `SparseMerkleTree` (`merkle.rs`): a `BTreeMap<Vec<u8>, Vec<u8>>` of
entries, embedded as a by-key sorted association list. -/
structure SparseMerkleTree where
  entries : List (Bytes × Bytes)
deriving DecidableEq, Repr

/-- `SparseMerkleTree::new`. -/
def SparseMerkleTree.new : SparseMerkleTree := { entries := [] }

/-- `SparseMerkleTree::insert`. -/
def SparseMerkleTree.insert (t : SparseMerkleTree) (key value : Bytes) :
    SparseMerkleTree :=
  { entries := sortedInsert key value t.entries }

/-- `SparseMerkleTree::delete`. -/
def SparseMerkleTree.deleteKey (t : SparseMerkleTree) (key : Bytes) :
    SparseMerkleTree :=
  { entries := sortedRemove key t.entries }

/-- `SparseMerkleTree::get`. -/
def SparseMerkleTree.get (t : SparseMerkleTree) (key : Bytes) : Option Bytes :=
  alLookup key t.entries

/-- `SparseMerkleTree::root` (`merkle.rs` lines 90–103). -/
def SparseMerkleTree.root (H : Bytes → Bytes) (t : SparseMerkleTree) : Bytes :=
  match t.entries with
  | [] => ZERO_HASH
  | es => compute_root_from_leaves H (es.map (fun kv => hash_leaf H kv.1 kv.2))

/-- `SparseMerkleTree::apply_writes` (`merkle.rs` lines 108–119): fold the
overlay writes in iteration order (`some` = insert, `none` = remove). -/
def SparseMerkleTree.apply_writes (t : SparseMerkleTree)
    (writes : List (Bytes × Option Bytes)) : SparseMerkleTree :=
  writes.foldl
    (fun acc kv =>
      match kv.2 with
      | some v => acc.insert kv.1 v
      | none => acc.deleteKey kv.1)
    t

/-! ## Crypto wrapper (`primitives/src/crypto.rs`)

`verify_ed25519` delegates to `ed25519_dalek`, an external crate.  The two
library operations — `VerifyingKey::from_bytes` (fallible key parsing) and
`VerifyingKey::verify` (boolean verdict) — appear as parameters
`fromBytesFn` and `libVerifyFn` over an arbitrary key type `K`. -/

/-- `verify_ed25519` (`crypto.rs` lines 39–47): parse the public key; on
parse failure return `false`; otherwise return the library verdict for
`(message, signature)`. -/
def verify_ed25519 {K : Type} (fromBytesFn : Bytes → Option K)
    (libVerifyFn : K → Bytes → Bytes → Bool)
    (message signature public_key : Bytes) : Bool :=
  match fromBytesFn public_key with
  | none => false
  | some vk => libVerifyFn vk message signature

/-! ## Binary codec (`primitives/src/codec.rs`)

The Rust `Reader` holds `(data, pos)`; the embedding represents the same
cursor by the remaining suffix, so a reader takes the remaining bytes and
returns the parsed value together with the bytes after it.  The public
`decode_*` entry points, like the Rust ones, ignore any bytes left after
the cursor. -/

/-- `Reader::read_bytes` (`codec.rs`): take `n` bytes or fail. -/
def readBytesN (n : Nat) (b : Bytes) : Except ExecError (Bytes × Bytes) :=
  if n ≤ b.length then Except.ok (b.take n, b.drop n)
  else Except.error (ExecError.serializationError ("unexpected end of data"))

/-- `Reader::read_u8`. -/
def readU8 (b : Bytes) : Except ExecError (Nat × Bytes) :=
  match readBytesN 1 b with
  | Except.ok (bs, r) => Except.ok (bs.headD 0, r)
  | Except.error e => Except.error e

/-- `Reader::read_u32`: 4 bytes little-endian. -/
def readU32 (b : Bytes) : Except ExecError (Nat × Bytes) :=
  match readBytesN 4 b with
  | Except.ok (bs, r) => Except.ok (leVal bs, r)
  | Except.error e => Except.error e

/-- `Reader::read_u64`: 8 bytes little-endian. -/
def readU64 (b : Bytes) : Except ExecError (Nat × Bytes) :=
  match readBytesN 8 b with
  | Except.ok (bs, r) => Except.ok (leVal bs, r)
  | Except.error e => Except.error e

/-- `Reader::read_bool`: a single byte restricted to `{0, 1}`. -/
def readBool (b : Bytes) : Except ExecError (Bool × Bytes) :=
  match readU8 b with
  | Except.ok (0, r) => Except.ok (false, r)
  | Except.ok (1, r) => Except.ok (true, r)
  | Except.ok (_, _) => Except.error (ExecError.serializationError ("invalid bool value"))
  | Except.error e => Except.error e

/-- `Reader::read_hash`: exactly 32 bytes. -/
def readHash (b : Bytes) : Except ExecError (Bytes × Bytes) :=
  readBytesN 32 b

/-- `Reader::read_optional_hash`: tag byte 0 = absent, 1 = present. -/
def readOptionalHash (b : Bytes) : Except ExecError (Option Bytes × Bytes) :=
  match readU8 b with
  | Except.ok (0, r) => Except.ok (none, r)
  | Except.ok (1, r) =>
    match readHash r with
    | Except.ok (h, r') => Except.ok (some h, r')
    | Except.error e => Except.error e
  | Except.ok (_, _) => Except.error (ExecError.serializationError ("invalid optional flag"))
  | Except.error e => Except.error e

/-- `Reader::read_var_bytes`: u32 length prefix then that many bytes. -/
def readVarBytes (b : Bytes) : Except ExecError (Bytes × Bytes) :=
  match readU32 b with
  | Except.ok (len, r) => readBytesN len r
  | Except.error e => Except.error e

/-- `Reader::read_string`: var bytes that must be valid UTF-8 (the result
is kept as its UTF-8 byte string). -/
def readString (b : Bytes) : Except ExecError (Bytes × Bytes) :=
  match readVarBytes b with
  | Except.ok (s, r) =>
    if validUtf8 s then Except.ok (s, r)
    else Except.error (ExecError.serializationError ("invalid UTF-8"))
  | Except.error e => Except.error e

/-- Read `n` consecutive values with the element reader `dec` (the
count-prefixed repetition pattern of `codec.rs`). -/
def readN {α : Type} (dec : Bytes → Except ExecError (α × Bytes)) :
    Nat → Bytes → Except ExecError (List α × Bytes)
  | 0, b => Except.ok ([], b)
  | n + 1, b =>
    match dec b with
    | Except.ok (x, r) =>
      match readN dec n r with
      | Except.ok (xs, r') => Except.ok (x :: xs, r')
      | Except.error e => Except.error e
    | Except.error e => Except.error e

/-- `write_u8`. -/
def writeU8 (v : Nat) : Bytes := [v % 256]

/-- `write_u32`: 4 bytes little-endian. -/
def writeU32 (v : Nat) : Bytes := toLe 4 v

/-- `write_u64`: 8 bytes little-endian. -/
def writeU64 (v : Nat) : Bytes := toLe 8 v

/-- `write_bool`. -/
def writeBool (v : Bool) : Bytes := [if v then 1 else 0]

/-- `write_optional_hash`. -/
def writeOptionalHash : Option Bytes → Bytes
  | none => [0]
  | some h => 1 :: h

/-- `write_var_bytes`: u32 length prefix then the bytes. -/
def writeVarBytes (data : Bytes) : Bytes := writeU32 data.length ++ data

/-- Concatenate the encodings of a list of values (the repetition pattern). -/
def joinMap {α : Type} (enc : α → Bytes) : List α → Bytes
  | [] => []
  | x :: xs => enc x ++ joinMap enc xs

/-- `encode_execution_request` (`codec.rs` lines 149–174). -/
def encode_execution_request (req : ExecutionRequest) : Bytes :=
  writeU32 req.api_version ++
  writeVarBytes req.chain_id ++
  writeU64 req.block_height ++
  writeU64 req.block_time ++
  req.block_hash ++
  req.prev_state_root ++
  writeU32 req.transactions.length ++
  joinMap writeVarBytes req.transactions ++
  writeU64 req.limits.gas_limit ++
  writeU32 req.limits.max_events ++
  writeU32 req.limits.max_write_bytes ++
  writeOptionalHash req.execution_seed

/-- `decode_execution_request` (`codec.rs` lines 177–214), cursor made
explicit: also returns the bytes after the cursor. -/
def decodeExecutionRequestR (data : Bytes) :
    Except ExecError (ExecutionRequest × Bytes) := do
  let (api_version, b) ← readU32 data
  let (chain_id, b) ← readVarBytes b
  let (block_height, b) ← readU64 b
  let (block_time, b) ← readU64 b
  let (block_hash, b) ← readHash b
  let (prev_state_root, b) ← readHash b
  let (tx_count, b) ← readU32 b
  let (transactions, b) ← readN readVarBytes tx_count b
  let (gas_limit, b) ← readU64 b
  let (max_events, b) ← readU32 b
  let (max_write_bytes, b) ← readU32 b
  let (execution_seed, b) ← readOptionalHash b
  pure
    ({ api_version := api_version
       chain_id := chain_id
       block_height := block_height
       block_time := block_time
       block_hash := block_hash
       prev_state_root := prev_state_root
       transactions := transactions
       limits :=
         { gas_limit := gas_limit
           max_events := max_events
           max_write_bytes := max_write_bytes }
       execution_seed := execution_seed }, b)

/-- `decode_execution_request` as the Rust signature exposes it (any bytes
after the cursor are ignored). -/
def decode_execution_request (data : Bytes) : Except ExecError ExecutionRequest :=
  match decodeExecutionRequestR data with
  | Except.ok (req, _) => Except.ok req
  | Except.error e => Except.error e

/-- `encode_receipt` (`codec.rs`). -/
def encode_receipt (receipt : Receipt) : Bytes :=
  writeU32 receipt.tx_index ++
  writeBool receipt.success ++
  writeU64 receipt.gas_used ++
  writeU32 receipt.result_code ++
  writeVarBytes receipt.return_data

/-- `decode_receipt` (`codec.rs`). -/
def decodeReceiptR (data : Bytes) : Except ExecError (Receipt × Bytes) := do
  let (tx_index, b) ← readU32 data
  let (success, b) ← readBool b
  let (gas_used, b) ← readU64 b
  let (result_code, b) ← readU32 b
  let (return_data, b) ← readVarBytes b
  pure
    ({ tx_index := tx_index
       success := success
       gas_used := gas_used
       result_code := result_code
       return_data := return_data }, b)

/-- `encode_event` (`codec.rs`). -/
def encode_event (event : Event) : Bytes :=
  writeU32 event.tx_index ++
  writeVarBytes event.event_type ++
  writeU32 event.attributes.length ++
  joinMap (fun attr => writeVarBytes attr.key ++ writeVarBytes attr.value)
    event.attributes

/-- Reader for one event attribute (`decode_event` loop body). -/
def decodeAttributeR (data : Bytes) : Except ExecError (EventAttribute × Bytes) := do
  let (key, b) ← readString data
  let (value, b) ← readVarBytes b
  pure ({ key := key, value := value }, b)

/-- `decode_event` (`codec.rs`). -/
def decodeEventR (data : Bytes) : Except ExecError (Event × Bytes) := do
  let (tx_index, b) ← readU32 data
  let (event_type, b) ← readString b
  let (attr_count, b) ← readU32 b
  let (attributes, b) ← readN decodeAttributeR attr_count b
  pure ({ tx_index := tx_index, event_type := event_type, attributes := attributes }, b)

/-- `encode_single_event` (`codec.rs`). -/
def encode_single_event (event : Event) : Bytes := encode_event event

/-- `decode_single_event` (`codec.rs`). -/
def decode_single_event (data : Bytes) : Except ExecError Event :=
  match decodeEventR data with
  | Except.ok (e, _) => Except.ok e
  | Except.error e => Except.error e

/-- Log-line encoding inside `encode_execution_response`. -/
def encode_log_line (log : LogLine) : Bytes :=
  writeU32 log.level ++ writeVarBytes log.message

/-- Log-line reader inside `decode_execution_response`. -/
def decodeLogLineR (data : Bytes) : Except ExecError (LogLine × Bytes) := do
  let (level, b) ← readU32 data
  let (message, b) ← readString b
  pure ({ level := level, message := message }, b)

/-- `encode_execution_response` (`codec.rs` lines 219–247). -/
def encode_execution_response (resp : ExecutionResponse) : Bytes :=
  writeU32 resp.api_version ++
  writeU8 resp.status.toU8 ++
  resp.new_state_root ++
  writeU64 resp.gas_used ++
  writeU32 resp.receipts.length ++
  joinMap encode_receipt resp.receipts ++
  writeU32 resp.events.length ++
  joinMap encode_event resp.events ++
  writeU32 resp.logs.length ++
  joinMap encode_log_line resp.logs

/-- `decode_execution_response` (`codec.rs` lines 250–290), with cursor. -/
def decodeExecutionResponseR (data : Bytes) :
    Except ExecError (ExecutionResponse × Bytes) := do
  let (api_version, b) ← readU32 data
  let (status_byte, b) ← readU8 b
  match ExecutionStatus.from_u8 status_byte with
  | none => throw (ExecError.serializationError ("invalid status"))
  | some status => do
    let (new_state_root, b) ← readHash b
    let (gas_used, b) ← readU64 b
    let (receipt_count, b) ← readU32 b
    let (receipts, b) ← readN decodeReceiptR receipt_count b
    let (event_count, b) ← readU32 b
    let (events, b) ← readN decodeEventR event_count b
    let (log_count, b) ← readU32 b
    let (logs, b) ← readN decodeLogLineR log_count b
    pure
      ({ api_version := api_version
         status := status
         new_state_root := new_state_root
         gas_used := gas_used
         receipts := receipts
         events := events
         logs := logs }, b)

/-- `decode_execution_response` as the Rust signature exposes it. -/
def decode_execution_response (data : Bytes) : Except ExecError ExecutionResponse :=
  match decodeExecutionResponseR data with
  | Except.ok (resp, _) => Except.ok resp
  | Except.error e => Except.error e

/-- `encode_execution_context` (`codec.rs` lines 363–377). -/
def encode_execution_context (ctx : ExecutionContext) : Bytes :=
  writeVarBytes ctx.chain_id ++
  writeU64 ctx.block_height ++
  writeU64 ctx.block_time ++
  ctx.block_hash ++
  writeU64 ctx.gas_limit ++
  writeU32 ctx.max_events ++
  writeU32 ctx.max_write_bytes ++
  writeU32 ctx.api_version ++
  writeOptionalHash ctx.execution_seed

/-- `decode_execution_context` (`codec.rs` lines 380–394), with cursor. -/
def decodeExecutionContextR (data : Bytes) :
    Except ExecError (ExecutionContext × Bytes) := do
  let (chain_id, b) ← readVarBytes data
  let (block_height, b) ← readU64 b
  let (block_time, b) ← readU64 b
  let (block_hash, b) ← readHash b
  let (gas_limit, b) ← readU64 b
  let (max_events, b) ← readU32 b
  let (max_write_bytes, b) ← readU32 b
  let (api_version, b) ← readU32 b
  let (execution_seed, b) ← readOptionalHash b
  pure
    ({ chain_id := chain_id
       block_height := block_height
       block_time := block_time
       block_hash := block_hash
       gas_limit := gas_limit
       max_events := max_events
       max_write_bytes := max_write_bytes
       api_version := api_version
       execution_seed := execution_seed }, b)

/-- `decode_execution_context` as the Rust signature exposes it. -/
def decode_execution_context (data : Bytes) : Except ExecError ExecutionContext :=
  match decodeExecutionContextR data with
  | Except.ok (ctx, _) => Except.ok ctx
  | Except.error e => Except.error e

/-! ### Well-formedness: the range constraints the Rust types impose

A Rust value of the corresponding struct type satisfies these by
construction (`u32`/`u64` field ranges, 32-byte arrays, `String` UTF-8
validity, `Vec` lengths below `u32::MAX` as asserted by the `as u32`
casts). -/

def WFHash (h : Bytes) : Prop := h.length = 32

def WFOptionalHash : Option Bytes → Prop
  | none => True
  | some h => WFHash h

def WFReceipt (r : Receipt) : Prop :=
  r.tx_index < 2 ^ 32 ∧ r.gas_used < 2 ^ 64 ∧ r.result_code < 2 ^ 32 ∧
    r.return_data.length < 2 ^ 32

def WFEventAttribute (a : EventAttribute) : Prop :=
  a.key.length < 2 ^ 32 ∧ validUtf8 a.key = true ∧ a.value.length < 2 ^ 32

def WFEvent (e : Event) : Prop :=
  e.tx_index < 2 ^ 32 ∧ e.event_type.length < 2 ^ 32 ∧
    validUtf8 e.event_type = true ∧ e.attributes.length < 2 ^ 32 ∧
    ∀ a ∈ e.attributes, WFEventAttribute a

def WFLogLine (l : LogLine) : Prop :=
  l.level < 2 ^ 32 ∧ l.message.length < 2 ^ 32 ∧ validUtf8 l.message = true

def WFRequest (req : ExecutionRequest) : Prop :=
  req.api_version < 2 ^ 32 ∧ req.chain_id.length < 2 ^ 32 ∧
    req.block_height < 2 ^ 64 ∧ req.block_time < 2 ^ 64 ∧
    WFHash req.block_hash ∧ WFHash req.prev_state_root ∧
    req.transactions.length < 2 ^ 32 ∧
    (∀ tx ∈ req.transactions, tx.length < 2 ^ 32) ∧
    req.limits.gas_limit < 2 ^ 64 ∧ req.limits.max_events < 2 ^ 32 ∧
    req.limits.max_write_bytes < 2 ^ 32 ∧ WFOptionalHash req.execution_seed

def WFResponse (resp : ExecutionResponse) : Prop :=
  resp.api_version < 2 ^ 32 ∧ WFHash resp.new_state_root ∧
    resp.gas_used < 2 ^ 64 ∧ resp.receipts.length < 2 ^ 32 ∧
    (∀ r ∈ resp.receipts, WFReceipt r) ∧ resp.events.length < 2 ^ 32 ∧
    (∀ e ∈ resp.events, WFEvent e) ∧ resp.logs.length < 2 ^ 32 ∧
    ∀ l ∈ resp.logs, WFLogLine l

def WFContext (ctx : ExecutionContext) : Prop :=
  ctx.chain_id.length < 2 ^ 32 ∧ ctx.block_height < 2 ^ 64 ∧
    ctx.block_time < 2 ^ 64 ∧ WFHash ctx.block_hash ∧
    ctx.gas_limit < 2 ^ 64 ∧ ctx.max_events < 2 ^ 32 ∧
    ctx.max_write_bytes < 2 ^ 32 ∧ ctx.api_version < 2 ^ 32 ∧
    WFOptionalHash ctx.execution_seed

/-- All bytes of a byte string are in `u8` range. -/
def WFBytes (b : Bytes) : Prop := ∀ x ∈ b, x < 256

/-! ## Engine host (`engine/src/host.rs`)

`MockHost` is the engine's in-repository implementation of the
`HostInterface` trait; `BlockExecutor::execute_block` is embedded against
it.  `verifyFn` stands for the external `crypto::verify_ed25519`
(`ed25519_dalek`), taking `(message, signature, public_key)`. -/

/-- `MockHost` (`host.rs`). -/
structure MockHost where
  committed : List (Bytes × Bytes)
  overlay : StateOverlay
  gas_meter : GasMeter
  context : ExecutionContext
  events : List Event
  logs : List LogLine
  max_events : Nat
  max_write_bytes : Nat
  verifyFn : Bytes → Bytes → Bytes → Bool

/-- `MockHost::new` (`host.rs`). -/
def MockHost.new (committed : List (Bytes × Bytes)) (context : ExecutionContext)
    (verifyFn : Bytes → Bytes → Bytes → Bool) : MockHost :=
  { committed := committed
    overlay := StateOverlay.new
    gas_meter := GasMeter.new context.gas_limit
    context := context
    events := []
    logs := []
    max_events := context.max_events
    max_write_bytes := context.max_write_bytes
    verifyFn := verifyFn }

/-- `MockHost::state_get` (`host.rs` lines 180–196): key-length check, then
overlay-first layered read. -/
def MockHost.state_get (h : MockHost) (key : Bytes) :
    Except ExecError (Option Bytes) :=
  if key.length > MAX_KEY_LEN then
    Except.error (ExecError.hostError ErrorCode.KeyTooLarge)
  else
    match h.overlay.get key with
    | OverlayResult.Found value => Except.ok (some value)
    | OverlayResult.Deleted => Except.ok none
    | OverlayResult.NotInOverlay => Except.ok (alLookup key h.committed)

/-- `MockHost::state_set` (`host.rs` lines 198–217): key/value length
checks, then the write-limit check on `total_write_bytes + key_len +
val_len`, and only then the overlay write. -/
def MockHost.state_set (h : MockHost) (key value : Bytes) :
    Except ExecError MockHost :=
  if key.length > MAX_KEY_LEN then
    Except.error (ExecError.hostError ErrorCode.KeyTooLarge)
  else if value.length > MAX_VALUE_LEN then
    Except.error (ExecError.hostError ErrorCode.ValueTooLarge)
  else if h.overlay.total_write_bytes + (key.length + value.length) >
      h.max_write_bytes then
    Except.error (ExecError.hostError ErrorCode.WriteLimit)
  else
    Except.ok { h with overlay := h.overlay.set key value }

/-- `MockHost::state_delete` (`host.rs` lines 219–226). -/
def MockHost.state_delete (h : MockHost) (key : Bytes) :
    Except ExecError MockHost :=
  if key.length > MAX_KEY_LEN then
    Except.error (ExecError.hostError ErrorCode.KeyTooLarge)
  else
    Except.ok { h with overlay := h.overlay.delete key }

/-- `MockHost::emit_event` (`host.rs` lines 228–234). -/
def MockHost.emit_event (h : MockHost) (event : Event) :
    Except ExecError MockHost :=
  if h.events.length ≥ h.max_events then
    Except.error (ExecError.hostError ErrorCode.EventLimit)
  else
    Except.ok { h with events := h.events ++ [event] }

/-- `MockHost::log` (`host.rs` lines 236–242): never fails. -/
def MockHost.log (h : MockHost) (level : Nat) (message : Bytes) :
    Except ExecError MockHost :=
  Except.ok { h with logs := h.logs ++ [{ level := level, message := message }] }

/-! ## Transaction processing (`engine/src/transaction.rs`) -/

/-- The bytes of `b"acct/"`. -/
def acctHead : Bytes := [97, 99, 99, 116, 47]

/-- The bytes of `b"/balance"`. -/
def balanceTail : Bytes := [47, 98, 97, 108, 97, 110, 99, 101]

/-- The bytes of `b"/nonce"`. -/
def nonceTail : Bytes := [47, 110, 111, 110, 99, 101]

/-- `balance_key` (`transaction.rs`): `"acct/" || addr || "/balance"`. -/
def balance_key (addr : Bytes) : Bytes := acctHead ++ addr ++ balanceTail

/-- `nonce_key` (`transaction.rs`): `"acct/" || addr || "/nonce"`. -/
def nonce_key (addr : Bytes) : Bytes := acctHead ++ addr ++ nonceTail

/-- `MIN_TRANSFER_TX_SIZE` (`transaction.rs`): 177. -/
def MIN_TRANSFER_TX_SIZE : Nat := 32 + 8 + 1 + 32 + 8 + 32 + 64

/-- `PAYLOAD_TRANSFER` tag byte. -/
def PAYLOAD_TRANSFER : Nat := 1

/-- `TransactionPayload` (`transaction.rs`). -/
inductive TransactionPayload where
  | Transfer (toAddr : Bytes) (amount : Nat)
deriving DecidableEq, Repr

/-- `DecodedTransaction` (`transaction.rs`). -/
structure DecodedTransaction where
  sender : Bytes
  nonce : Nat
  payload : TransactionPayload
  public_key : Bytes
  signature : Bytes
  signed_data : Bytes
deriving DecidableEq, Repr

/-- `decode_transaction` (`transaction.rs` lines 76–148).  The numeric
formatting inside the Rust error messages is elided; only the error
variant is observable downstream (it maps to `result_code = 2`). -/
def decode_transaction (raw : Bytes) : Except ExecError DecodedTransaction :=
  if raw.length < MIN_TRANSFER_TX_SIZE then
    Except.error (ExecError.serializationError ("transaction too short"))
  else
    let sender := raw.take 32
    match u64_from_le_bytes (raw.drop 32) with
    | none => Except.error (ExecError.serializationError ("invalid nonce"))
    | some nonce =>
      let payload_type := (raw.drop 40).headD 0
      if payload_type = PAYLOAD_TRANSFER then
        if raw.length < 41 + 32 + 8 + 32 + 64 then
          Except.error (ExecError.serializationError ("transfer payload too short"))
        else
          let toAddr := (raw.drop 41).take 32
          match u64_from_le_bytes (raw.drop 73) with
          | none => Except.error (ExecError.serializationError ("invalid amount"))
          | some amount =>
            let signed_data := raw.take 81
            if raw.length < 81 + 32 + 64 then
              Except.error
                (ExecError.serializationError ("missing public key or signature"))
            else
              Except.ok
                { sender := sender
                  nonce := nonce
                  payload := TransactionPayload.Transfer toAddr amount
                  public_key := (raw.drop 81).take 32
                  signature := (raw.drop 113).take 64
                  signed_data := signed_data }
      else
        Except.error (ExecError.serializationError ("unknown payload type"))

/-- `read_balance` (`transaction.rs`): default 0 when absent. -/
def read_balance (h : MockHost) (addr : Bytes) : Except ExecError Nat :=
  match h.state_get (balance_key addr) with
  | Except.ok (some bytes) =>
    match u64_from_le_bytes bytes with
    | some v => Except.ok v
    | none => Except.error (ExecError.serializationError ("corrupt balance"))
  | Except.ok none => Except.ok 0
  | Except.error e => Except.error e

/-- `read_nonce` (`transaction.rs`): default 0 when absent. -/
def read_nonce (h : MockHost) (addr : Bytes) : Except ExecError Nat :=
  match h.state_get (nonce_key addr) with
  | Except.ok (some bytes) =>
    match u64_from_le_bytes bytes with
    | some v => Except.ok v
    | none => Except.error (ExecError.serializationError ("corrupt nonce"))
  | Except.ok none => Except.ok 0
  | Except.error e => Except.error e

/-- `write_balance` (`transaction.rs`). -/
def write_balance (h : MockHost) (addr : Bytes) (balance : Nat) :
    Except ExecError MockHost :=
  h.state_set (balance_key addr) (u64_to_le_bytes balance)

/-- `write_nonce` (`transaction.rs`). -/
def write_nonce (h : MockHost) (addr : Bytes) (nonce : Nat) :
    Except ExecError MockHost :=
  h.state_set (nonce_key addr) (u64_to_le_bytes nonce)

/-- The bytes of `"transfer"`. -/
def transferTypeBytes : Bytes := [116, 114, 97, 110, 115, 102, 101, 114]

/-- The bytes of `"sender"`. -/
def senderKeyBytes : Bytes := [115, 101, 110, 100, 101, 114]

/-- The bytes of `"recipient"`. -/
def recipientKeyBytes : Bytes := [114, 101, 99, 105, 112, 105, 101, 110, 116]

/-- The bytes of `"amount"`. -/
def amountKeyBytes : Bytes := [97, 109, 111, 117, 110, 116]

/-- The `"transfer"` event built at the end of `execute_transfer`. -/
def transferEvent (tx_index : Nat) (sender toAddr : Bytes) (amount : Nat) : Event :=
  { tx_index := tx_index
    event_type := transferTypeBytes
    attributes :=
      [{ key := senderKeyBytes, value := sender },
       { key := recipientKeyBytes, value := toAddr },
       { key := amountKeyBytes, value := u64_to_le_bytes amount }] }

/-- `execute_transfer` (`transaction.rs` lines 302–360).  The host is
threaded through the error path because Rust mutates it in place: gas
charged and overlay writes made before a failure survive the failure. -/
def execute_transfer (tx_index : Nat) (sender toAddr : Bytes) (amount : Nat)
    (h0 : MockHost) : Except ExecError (List Event) × MockHost :=
  match h0.gas_meter.consume (gas_cost_state_get (balance_key sender).length) with
  | Except.error e => (Except.error e, h0)
  | Except.ok m1 =>
    let h1 := { h0 with gas_meter := m1 }
    match read_balance h1 sender with
    | Except.error e => (Except.error e, h1)
    | Except.ok sender_balance =>
      if sender_balance < amount then
        (Except.error (ExecError.invalidBlock
          ("insufficient balance: have " ++ toString sender_balance ++
            ", need " ++ toString amount)), h1)
      else
        match h1.gas_meter.consume (gas_cost_state_get (balance_key toAddr).length) with
        | Except.error e => (Except.error e, h1)
        | Except.ok m2 =>
          let h2 := { h1 with gas_meter := m2 }
          match read_balance h2 toAddr with
          | Except.error e => (Except.error e, h2)
          | Except.ok to_balance =>
            if U64_MAX < to_balance + amount then
              (Except.error (ExecError.invalidBlock ("recipient balance overflow")), h2)
            else
              match h2.gas_meter.consume
                  (gas_cost_state_set (balance_key sender).length 8) with
              | Except.error e => (Except.error e, h2)
              | Except.ok m3 =>
                let h3 := { h2 with gas_meter := m3 }
                match write_balance h3 sender (sender_balance - amount) with
                | Except.error e => (Except.error e, h3)
                | Except.ok h4 =>
                  match h4.gas_meter.consume
                      (gas_cost_state_set (balance_key toAddr).length 8) with
                  | Except.error e => (Except.error e, h4)
                  | Except.ok m4 =>
                    let h5 := { h4 with gas_meter := m4 }
                    match write_balance h5 toAddr (to_balance + amount) with
                    | Except.error e => (Except.error e, h5)
                    | Except.ok h6 =>
                      (Except.ok [transferEvent tx_index sender toAddr amount], h6)

/-- `process_transaction_inner` (`transaction.rs` lines 257–299). -/
def process_transaction_inner (tx_index : Nat) (tx : DecodedTransaction)
    (h0 : MockHost) : Except ExecError (List Event) × MockHost :=
  match h0.gas_meter.consume G_VERIFY_ED25519 with
  | Except.error e => (Except.error e, h0)
  | Except.ok m1 =>
    let h1 := { h0 with gas_meter := m1 }
    let sig_valid := h1.verifyFn tx.signed_data tx.signature tx.public_key
    if sig_valid = false then
      (Except.error (ExecError.hostError ErrorCode.SigInvalid), h1)
    else
      match h1.gas_meter.consume (gas_cost_state_get (nonce_key tx.sender).length) with
      | Except.error e => (Except.error e, h1)
      | Except.ok m2 =>
        let h2 := { h1 with gas_meter := m2 }
        match read_nonce h2 tx.sender with
        | Except.error e => (Except.error e, h2)
        | Except.ok current_nonce =>
          if tx.nonce ≠ current_nonce then
            (Except.error (ExecError.invalidBlock
              ("nonce mismatch: expected " ++ toString current_nonce ++
                ", got " ++ toString tx.nonce)), h2)
          else
            match tx.payload with
            | TransactionPayload.Transfer toAddr amount =>
              match execute_transfer tx_index tx.sender toAddr amount h2 with
              | (Except.error e, h3) => (Except.error e, h3)
              | (Except.ok events, h3) =>
                match h3.gas_meter.consume
                    (gas_cost_state_set (nonce_key tx.sender).length 8) with
                | Except.error e => (Except.error e, h3)
                | Except.ok m4 =>
                  let h4 := { h3 with gas_meter := m4 }
                  match write_nonce h4 tx.sender (current_nonce + 1) with
                  | Except.error e => (Except.error e, h4)
                  | Except.ok h5 => (Except.ok events, h5)

/-- `result_code` mapping of `process_transaction` (`transaction.rs`
lines 238–244). -/
def errResultCode : ExecError → Nat
  | ExecError.hostError code => code.as_i32
  | ExecError.outOfGas _ _ => 7
  | ExecError.invalidBlock _ => 1
  | ExecError.serializationError _ => 2
  | _ => 10

/-- `process_transaction` (`transaction.rs` lines 214–254): run the inner
steps; on success emit the events (ignoring emission failure) and record
the consumed-gas delta in the receipt. -/
def process_transaction (tx_index : Nat) (tx : DecodedTransaction)
    (h : MockHost) : Receipt × MockHost :=
  let gas_before := h.gas_meter.consumed
  match process_transaction_inner tx_index tx h with
  | (Except.ok events, h1) =>
    let h2 := events.foldl
      (fun acc e =>
        match acc.emit_event e with
        | Except.ok acc' => acc'
        | Except.error _ => acc)
      h1
    ({ tx_index := tx_index
       success := true
       gas_used := h2.gas_meter.consumed - gas_before
       result_code := 0
       return_data := [] }, h2)
  | (Except.error err, h1) =>
    ({ tx_index := tx_index
       success := false
       gas_used := h1.gas_meter.consumed - gas_before
       result_code := errResultCode err
       return_data := [] }, h1)

/-! ## Request validation (`engine/src/validation.rs`) -/

/-- `validate_api_version` (`validation.rs`). -/
def validate_api_version (req : ExecutionRequest) : Except ExecError Unit :=
  if req.api_version ≠ API_VERSION then
    Except.error (ExecError.invalidApiVersion API_VERSION req.api_version)
  else Except.ok ()

/-- `validate_block_fields` (`validation.rs`). -/
def validate_block_fields (req : ExecutionRequest) : Except ExecError Unit :=
  if req.block_height = 0 then
    Except.error (ExecError.invalidBlock ("block_height must be > 0"))
  else if req.chain_id.isEmpty then
    Except.error (ExecError.invalidBlock ("chain_id must be non-empty"))
  else if req.limits.gas_limit = 0 then
    Except.error (ExecError.invalidBlock ("gas_limit must be > 0"))
  else Except.ok ()

/-- `validate_request` (`validation.rs`). -/
def validate_request (req : ExecutionRequest) : Except ExecError Unit :=
  match validate_api_version req with
  | Except.error e => Except.error e
  | Except.ok _ => validate_block_fields req

/-! ## Block executor (`engine/src/executor.rs`) -/

/-- The decode-failure receipt pushed by the executor loop. -/
def decodeFailReceipt (tx_index : Nat) : Receipt :=
  { tx_index := tx_index
    success := false
    gas_used := 0
    result_code := 2
    return_data := [] }

/-- The transaction loop of `execute_block` (`executor.rs` lines 67–97):
decode failures push a failed receipt and continue; after processing a
transaction, `gas_meter.is_exhausted()` stops the loop with the
block-gas-exceeded flag set. -/
def execTxLoop : List Bytes → Nat → MockHost → List Receipt × MockHost × Bool
  | [], _, h => ([], h, false)
  | raw :: rest, idx, h =>
    match decode_transaction raw with
    | Except.error _ =>
      let out := execTxLoop rest (idx + 1) h
      (decodeFailReceipt idx :: out.1, out.2)
    | Except.ok tx =>
      let pr := process_transaction idx tx h
      if pr.2.gas_meter.is_exhausted then ([pr.1], pr.2, true)
      else
        let out := execTxLoop rest (idx + 1) pr.2
        (pr.1 :: out.1, out.2)

/-- Straight-line processing of a transaction list: the same loop with the
gas-exhaustion early stop removed (used to characterize what the early
stop leaves behind). -/
def execTxStraight : List Bytes → Nat → MockHost → List Receipt × MockHost
  | [], _, h => ([], h)
  | raw :: rest, idx, h =>
    match decode_transaction raw with
    | Except.error _ =>
      let out := execTxStraight rest (idx + 1) h
      (decodeFailReceipt idx :: out.1, out.2)
    | Except.ok tx =>
      let pr := process_transaction idx tx h
      let out := execTxStraight rest (idx + 1) pr.2
      (pr.1 :: out.1, out.2)

/-- `compute_state_root` (`executor.rs` lines 137–151): previous root if the
overlay is empty, else the root of a fresh tree built from the overlay
writes alone. -/
def compute_state_root (H : Bytes → Bytes) (prev_state_root : Bytes)
    (h : MockHost) : Bytes :=
  let writes := h.overlay.writes
  if writes.isEmpty then prev_state_root
  else (SparseMerkleTree.new.apply_writes writes).root H

/-- `BlockExecutor::execute_block` (`executor.rs` lines 41–128).  Returns
the response together with the final host state (the Rust function
mutates the host it receives). -/
def execute_block (H : Bytes → Bytes) (request : ExecutionRequest)
    (h : MockHost) : ExecutionResponse × MockHost :=
  match validate_request request with
  | Except.error err =>
    let status :=
      match err with
      | ExecError.invalidApiVersion _ _ => ExecutionStatus.InvalidBlock
      | ExecError.invalidBlock _ => ExecutionStatus.InvalidBlock
      | _ => ExecutionStatus.ExecutionError
    (ExecutionResponse.failure request.api_version status request.prev_state_root, h)
  | Except.ok _ =>
    let out := execTxLoop request.transactions 0 h
    let h1 := out.2.1
    if out.2.2 then
      ({ api_version := request.api_version
         status := ExecutionStatus.OutOfGas
         new_state_root := request.prev_state_root
         gas_used := h1.gas_meter.consumed
         receipts := out.1
         events := []
         logs := h1.logs }, h1)
    else
      ({ api_version := request.api_version
         status := ExecutionStatus.Ok
         new_state_root := compute_state_root H request.prev_state_root h1
         gas_used := h1.gas_meter.consumed
         receipts := out.1
         events := h1.events
         logs := h1.logs }, h1)

/-! ## Sandbox host state (`SandBox/sandbox/src/host_impl.rs`)

Only the pieces `HostState::state_set` reads and writes are embedded: the
overlay and the `ExecutionConfig` limits. -/

/-- `ExecutionConfig` (`hostapi/src/types.rs`), limit fields. -/
structure ExecutionConfig where
  gas_limit : Nat
  max_events : Nat
  max_write_bytes : Nat
  max_key_len : Nat
  max_value_len : Nat
  max_log_lines : Nat
  max_log_line_len : Nat
deriving DecidableEq, Repr

/-- `ExecutionConfig::default`. -/
def ExecutionConfig.default : ExecutionConfig :=
  { gas_limit := 10000000
    max_events := 1024
    max_write_bytes := 4 * 1024 * 1024
    max_key_len := MAX_KEY_LEN
    max_value_len := MAX_VALUE_LEN
    max_log_lines := 256
    max_log_line_len := 1024 }

/-- The overlay-and-config fragment of `HostState` (`host_impl.rs`). -/
structure HostState where
  overlay : StateOverlay
  config : ExecutionConfig
deriving DecidableEq, Repr

/-- `HostState::state_set` (`host_impl.rs` lines 81–96): length and
emptiness checks, then the overlay write, and only after the write the
total-write-bytes check — a `write-limit` error leaves the new entry in
the overlay. -/
def HostState.state_set (s : HostState) (key value : Bytes) :
    Except ErrorCode Unit × HostState :=
  if key.length > s.config.max_key_len then
    (Except.error ErrorCode.KeyTooLarge, s)
  else if value.length > s.config.max_value_len then
    (Except.error ErrorCode.ValueTooLarge, s)
  else if key.isEmpty then
    (Except.error ErrorCode.KeyTooLarge, s)
  else
    let s' := { s with overlay := s.overlay.set key value }
    if s'.overlay.total_write_bytes > s.config.max_write_bytes then
      (Except.error ErrorCode.WriteLimit, s')
    else
      (Except.ok (), s')

/-! ## Merkle construction sequences (for the order-independence property) -/

/-- One step of a Merkle-tree construction sequence: `SparseMerkleTree::insert`
or `SparseMerkleTree::delete`. -/
inductive MerkleOp where
  | set (key value : Bytes)
  | del (key : Bytes)
deriving DecidableEq, Repr

/-- Build a tree by running a construction sequence from the empty tree. -/
def applyOps (ops : List MerkleOp) : SparseMerkleTree :=
  ops.foldl
    (fun t op =>
      match op with
      | MerkleOp.set k v => t.insert k v
      | MerkleOp.del k => t.deleteKey k)
    SparseMerkleTree.new

/-! ## Concrete fixtures used by witnesses and counterexamples -/

/-- Signature verifier that accepts everything (stand-in instantiation of
the external library parameter for concrete runs). -/
def vTrue : Bytes → Bytes → Bytes → Bool := fun _ _ _ => true

/-- Signature verifier that rejects everything. -/
def vFalse : Bytes → Bytes → Bytes → Bool := fun _ _ _ => false

/-- A concrete executable stand-in for the hash parameter in witnesses. -/
def wHashFn : Bytes → Bytes := fun bs => List.replicate 31 0 ++ [bs.length % 256]

/-- A sender address: 32 bytes of 1. -/
def wSender : Bytes := List.replicate 32 1

/-- A recipient address: 32 bytes of 2. -/
def wRecipient : Bytes := List.replicate 32 2

/-- A small execution context with the default limits and a given gas limit. -/
def wCtx (gas_limit : Nat) : ExecutionContext :=
  { chain_id := [116]
    block_height := 1
    block_time := 0
    block_hash := ZERO_HASH
    gas_limit := gas_limit
    max_events := 1024
    max_write_bytes := 4194304
    api_version := 1
    execution_seed := none }

/-- A raw transfer transaction: `wSender` sends `amount` to `wRecipient`
at nonce 0 (zero public key and signature bytes). -/
def wRawTx (amount : Nat) : Bytes :=
  wSender ++ u64_to_le_bytes 0 ++ [1] ++ wRecipient ++ u64_to_le_bytes amount ++
    List.replicate 32 0 ++ List.replicate 64 0

/-- A request carrying the given transactions under gas limit `gas_limit`. -/
def wReq (gas_limit : Nat) (txs : List Bytes) : ExecutionRequest :=
  { api_version := 1
    chain_id := [116]
    block_height := 1
    block_time := 0
    block_hash := ZERO_HASH
    prev_state_root := List.replicate 32 9
    transactions := txs
    limits := { gas_limit := gas_limit, max_events := 1024, max_write_bytes := 4194304 }
    execution_seed := none }

/-- A host whose committed store funds `wSender` with `balance`, under the
given gas limit and an accept-all verifier. -/
def wFundedHost (gas_limit balance : Nat) : MockHost :=
  MockHost.new [(balance_key wSender, u64_to_le_bytes balance)] (wCtx gas_limit) vTrue

/-- C9 scenario: gas limit 4000, transfer of 3000 from a balance of 10000;
the recipient-balance set charge fails out-of-gas after the sender write. -/
def c9Host : MockHost := wFundedHost 4000 10000

/-- C9 scenario request. -/
def c9Req : ExecutionRequest := wReq 4000 [wRawTx 3000]

/-- Block-level out-of-gas scenario: gas limit 2000 is fully consumed by
the signature-verification charge. -/
def oogHost : MockHost := wFundedHost 2000 10000

/-- Request of the block-level out-of-gas scenario. -/
def oogReq : ExecutionRequest := wReq 2000 [wRawTx 3000]

/-- C2 counterexample transaction (already decoded): transfer of 4000. -/
def c2Tx : DecodedTransaction :=
  { sender := wSender
    nonce := 0
    payload := TransactionPayload.Transfer wRecipient 4000
    public_key := List.replicate 32 0
    signature := List.replicate 64 0
    signed_data := [1, 2, 3] }

/-- C2 counterexample host: gas limit 4000, balance 10000. -/
def c2Host : MockHost := wFundedHost 4000 10000

/-- C2 witness transaction: a transfer whose signature the verifier
rejects. -/
def w2Tx : DecodedTransaction := c2Tx

/-- C2 witness host: reject-all verifier. -/
def w2Host : MockHost :=
  MockHost.new [(balance_key wSender, u64_to_le_bytes 10000)] (wCtx 4000) vFalse

/-- C3 host: empty committed store, default limits. -/
def c3Host : MockHost := MockHost.new [] (wCtx 10000000) vTrue

/-- C3 sandbox host state with the default configuration. -/
def c3Sandbox : HostState :=
  { overlay := StateOverlay.new, config := ExecutionConfig.default }

/-- C5 counterexample input: 110 zero bytes (a minimal all-zero request
encoding plus one trailing byte). -/
def c5Bytes : Bytes := List.replicate 110 0

/-- The request decoded from `c5Bytes`. -/
def c5Req : ExecutionRequest :=
  { api_version := 0
    chain_id := []
    block_height := 0
    block_time := 0
    block_hash := List.replicate 32 0
    prev_state_root := List.replicate 32 0
    transactions := []
    limits := { gas_limit := 0, max_events := 0, max_write_bytes := 0 }
    execution_seed := none }

/-- C6 witness: two construction sequences with the same final set. -/
def w6Ops1 : List MerkleOp := [MerkleOp.set [2] [5], MerkleOp.set [1] [4]]

/-- C6 witness: the other construction sequence. -/
def w6Ops2 : List MerkleOp :=
  [MerkleOp.set [1] [4], MerkleOp.set [2] [5], MerkleOp.set [3] [9], MerkleOp.del [3]]

/-- C10 witness host: an overlay holding a single tombstone. -/
def w10Host : MockHost :=
  { MockHost.new [] (wCtx 10000000) vTrue with overlay := StateOverlay.new.delete [7] }

/-- C10 witness request: no transactions, a non-zero previous root. -/
def w10Req : ExecutionRequest := wReq 10000000 []

/-! ## C7 — gas meter charge -/

/-- C7: for every gas meter `(limit, consumed)` with a `u64` limit and
every amount `n`, `consume n` succeeds exactly when `consumed + n ≤ limit`
(computed without wraparound); on success `consumed` becomes
`consumed + n` (and the limit is unchanged); on failure the returned error
is out-of-gas and the meter value the caller holds is unchanged. -/
theorem C7_gas_meter_charge (m : GasMeter) (n : Nat) (hlim : m.limit ≤ U64_MAX) :
    (∀ m', m.consume n = Except.ok m' →
      m.consumed + n ≤ m.limit ∧
        m' = { limit := m.limit, consumed := m.consumed + n }) ∧
    (∀ e, m.consume n = Except.error e →
      ¬ m.consumed + n ≤ m.limit ∧ ∃ used, e = ExecError.outOfGas m.limit used) ∧
    (m.consumed + n ≤ m.limit ↔ ∃ m', m.consume n = Except.ok m') := by
  unfold GasMeter.consume
  by_cases hc : m.consumed + n ≤ m.limit
  · have hmax : m.consumed + n ≤ U64_MAX := le_trans hc hlim
    rw [if_pos ⟨hmax, hc⟩]
    refine ⟨?_, ?_, ?_⟩
    · intro m' hm'
      refine ⟨hc, ?_⟩
      cases hm'
      rfl
    · intro e he
      cases he
    · exact ⟨fun _ => ⟨_, rfl⟩, fun _ => hc⟩
  · have hcond : ¬ (m.consumed + n ≤ U64_MAX ∧ m.consumed + n ≤ m.limit) := by
      intro hpair
      exact hc hpair.2
    rw [if_neg hcond]
    refine ⟨?_, ?_, ?_⟩
    · intro m' hm'
      cases hm'
    · intro e he
      cases he
      exact ⟨hc, ⟨_, rfl⟩⟩
    · constructor
      · intro h
        exact absurd h hc
      · intro ⟨m', hm'⟩
        cases hm'

/-- Witness for C7 at `limit = 100`, `consumed = 40`, `n = 50`. -/
theorem C7_gas_meter_charge_witness :
    (GasMeter.mk 100 40).limit ≤ U64_MAX ∧
    ((GasMeter.mk 100 40).consumed + 50 ≤ (GasMeter.mk 100 40).limit ↔
      ∃ m', (GasMeter.mk 100 40).consume 50 = Except.ok m') :=
  ⟨by decide, (C7_gas_meter_charge ⟨100, 40⟩ 50 (by decide)).2.2⟩

/-! ## C8 — `verify_ed25519` wrapper -/

/-- C8: for every message, signature, and public key, and for every total
library key parser and verifier (the `ed25519_dalek` operations the
wrapper delegates to), `verify_ed25519` returns a boolean equal to: false
when the public-key bytes do not parse, else the library verdict.  In
particular it returns `false` for any byte string that is not a valid
public key and for any signature the library rejects over the message
under that key.  (In the embedding the function is total, the shallow
counterpart of never panicking.) -/
theorem C8_verify_ed25519_safe {K : Type} (fromBytesFn : Bytes → Option K)
    (libVerifyFn : K → Bytes → Bytes → Bool)
    (message signature public_key : Bytes) :
    verify_ed25519 fromBytesFn libVerifyFn message signature public_key =
      ((fromBytesFn public_key).map
        (fun vk => libVerifyFn vk message signature)).getD false ∧
    (fromBytesFn public_key = none →
      verify_ed25519 fromBytesFn libVerifyFn message signature public_key = false) ∧
    (∀ vk, fromBytesFn public_key = some vk →
      libVerifyFn vk message signature = false →
      verify_ed25519 fromBytesFn libVerifyFn message signature public_key = false) := by
  unfold verify_ed25519
  refine ⟨?_, ?_, ?_⟩
  · cases fromBytesFn public_key <;> rfl
  · intro hnone
    rw [hnone]
  · intro vk hsome hfalse
    rw [hsome]
    exact hfalse

/-- Witness for C8: a parser that rejects every byte string makes the
wrapper return `false`. -/
theorem C8_verify_ed25519_safe_witness :
    ((fun _ => none) : Bytes → Option Unit) [7] = none ∧
    verify_ed25519 (fun _ => (none : Option Unit)) (fun _ _ _ => true) [1] [2] [7] = false :=
  ⟨rfl,
    (C8_verify_ed25519_safe (fun _ => (none : Option Unit)) (fun _ _ _ => true)
      [1] [2] [7]).2.1 rfl⟩

/-! ## C3 — `state_set` validation -/

/-- C3 counterexample: `MockHost::state_set` accepts the empty key (the
claim requires failure with key-too-large unless `0 < key_len`) and
writes the pair to the overlay. -/
theorem C3_state_set_counterexample :
    (c3Host.state_set [] [5]).toOption.map (fun h => h.overlay.writes) =
      some [([], some [5])] := by
  decide

/-- C3 (amended): `MockHost::state_set` fails with key-too-large only when
`key_len > 256` (the empty key is accepted), with value-too-large when
`value_len > 65536`, and with write-limit when
`total_write_bytes + key_len + value_len` exceeds `max_write_bytes` — no
credit for a prior entry of the same key; all checks precede the write,
so on failure the overlay is unchanged.  `HostState::state_set`
additionally rejects the empty key, but performs the overlay write (with
replacement accounting) before the write-limit check, so a write-limit
error leaves the new entry in the overlay. -/
theorem C3_state_set_amended (h : MockHost) (s : HostState) (key value : Bytes) :
    (MAX_KEY_LEN < key.length →
      h.state_set key value = Except.error (ExecError.hostError ErrorCode.KeyTooLarge)) ∧
    (key.length ≤ MAX_KEY_LEN → MAX_VALUE_LEN < value.length →
      h.state_set key value = Except.error (ExecError.hostError ErrorCode.ValueTooLarge)) ∧
    (key.length ≤ MAX_KEY_LEN → value.length ≤ MAX_VALUE_LEN →
      h.max_write_bytes < h.overlay.total_write_bytes + (key.length + value.length) →
      h.state_set key value = Except.error (ExecError.hostError ErrorCode.WriteLimit)) ∧
    (key.length ≤ MAX_KEY_LEN → value.length ≤ MAX_VALUE_LEN →
      h.overlay.total_write_bytes + (key.length + value.length) ≤ h.max_write_bytes →
      h.state_set key value = Except.ok { h with overlay := h.overlay.set key value }) ∧
    (key ≠ [] → key.length ≤ s.config.max_key_len →
      value.length ≤ s.config.max_value_len →
      (s.state_set key value).2.overlay = s.overlay.set key value ∧
      ((s.state_set key value).1 = Except.error ErrorCode.WriteLimit ↔
        s.config.max_write_bytes < (s.overlay.set key value).total_write_bytes)) ∧
    (key = [] → value.length ≤ s.config.max_value_len →
      s.state_set key value = (Except.error ErrorCode.KeyTooLarge, s)) := by
  refine ⟨?_, ?_, ?_, ?_, ?_, ?_⟩
  · intro hk
    unfold MockHost.state_set
    rw [if_pos (by omega)]
  · intro hk hv
    unfold MockHost.state_set
    rw [if_neg (by omega), if_pos (by omega)]
  · intro hk hv hw
    unfold MockHost.state_set
    rw [if_neg (by omega), if_neg (by omega), if_pos (by omega)]
  · intro hk hv hw
    unfold MockHost.state_set
    rw [if_neg (by omega), if_neg (by omega), if_neg (by omega)]
  · intro hne hk hv
    unfold HostState.state_set
    rw [if_neg (by omega), if_neg (by omega),
      if_neg (by simp [List.isEmpty_iff, hne])]
    by_cases hw : s.config.max_write_bytes < (s.overlay.set key value).total_write_bytes
    · rw [if_pos (by simpa using hw)]
      exact ⟨rfl, by simp [hw]⟩
    · rw [if_neg (by simpa using hw)]
      refine ⟨rfl, ?_⟩
      simp only [iff_false, hw]
      intro hcontra
      cases hcontra
  · intro hke hv
    unfold HostState.state_set
    subst hke
    rw [if_neg (by simp), if_neg (by omega), if_pos (by simp)]

/-- Witness for C3 (amended), success path of `MockHost::state_set` and
empty-key path of `HostState::state_set`. -/
theorem C3_state_set_amended_witness :
    (([1] : Bytes).length ≤ MAX_KEY_LEN ∧ ([5] : Bytes).length ≤ MAX_VALUE_LEN ∧
      c3Host.overlay.total_write_bytes + (([1] : Bytes).length + ([5] : Bytes).length) ≤
        c3Host.max_write_bytes ∧
      c3Host.state_set [1] [5] =
        Except.ok { c3Host with overlay := c3Host.overlay.set [1] [5] }) ∧
    c3Sandbox.state_set [] [5] = (Except.error ErrorCode.KeyTooLarge, c3Sandbox) :=
  ⟨⟨by decide, by decide, by decide,
    (C3_state_set_amended c3Host c3Sandbox [1] [5]).2.2.2.1
      (by decide) (by decide) (by decide)⟩,
    (C3_state_set_amended c3Host c3Sandbox [] [5]).2.2.2.2.2 rfl (by decide)⟩

/-! ## Host-state bookkeeping lemmas -/

/-- Frame facts preserved by every transaction-processing step: the event
list is untouched, the gas limit is unchanged, and consumption is
monotone. -/
def HostFrame (h0 h1 : MockHost) : Prop :=
  h1.events = h0.events ∧ h1.gas_meter.limit = h0.gas_meter.limit ∧
    h0.gas_meter.consumed ≤ h1.gas_meter.consumed

theorem HostFrame.refl (h : MockHost) : HostFrame h h :=
  ⟨rfl, rfl, le_refl _⟩

theorem HostFrame.trans {h0 h1 h2 : MockHost} (a : HostFrame h0 h1)
    (b : HostFrame h1 h2) : HostFrame h0 h2 :=
  ⟨b.1.trans a.1, b.2.1.trans a.2.1, a.2.2.trans b.2.2⟩

theorem consume_ok_spec {m m' : GasMeter} {n : Nat}
    (hc : m.consume n = Except.ok m') :
    m'.limit = m.limit ∧ m'.consumed = m.consumed + n := by
  unfold GasMeter.consume at hc
  split at hc
  · cases hc
    exact ⟨rfl, rfl⟩
  · cases hc

theorem consume_error_shape {m : GasMeter} {n : Nat} {e : ExecError}
    (hc : m.consume n = Except.error e) : ∃ l u, e = ExecError.outOfGas l u := by
  unfold GasMeter.consume at hc
  split at hc
  · cases hc
  · cases hc
    exact ⟨_, _, rfl⟩

theorem state_set_ok_eq {h h' : MockHost} {k v : Bytes}
    (hs : h.state_set k v = Except.ok h') :
    h' = { h with overlay := h.overlay.set k v } := by
  unfold MockHost.state_set at hs
  split at hs
  · cases hs
  · split at hs
    · cases hs
    · split at hs
      · cases hs
      · cases hs
        rfl

theorem state_set_error_small {h : MockHost} {k v : Bytes} {e : ExecError}
    (hk : k.length ≤ MAX_KEY_LEN) (hv : v.length ≤ MAX_VALUE_LEN)
    (hs : h.state_set k v = Except.error e) :
    e = ExecError.hostError ErrorCode.WriteLimit := by
  unfold MockHost.state_set at hs
  split at hs
  · omega
  · split at hs
    · omega
    · split at hs
      · cases hs
        rfl
      · cases hs

theorem state_get_ok_keylen {h : MockHost} {k : Bytes} {v : Option Bytes}
    (hs : h.state_get k = Except.ok v) : k.length ≤ MAX_KEY_LEN := by
  unfold MockHost.state_get at hs
  split at hs
  · cases hs
  · omega

theorem read_balance_ok_keylen {h : MockHost} {addr : Bytes} {v : Nat}
    (hr : read_balance h addr = Except.ok v) :
    (balance_key addr).length ≤ MAX_KEY_LEN := by
  unfold read_balance at hr
  split at hr
  next heq => exact state_get_ok_keylen heq
  next heq => exact state_get_ok_keylen heq
  next => cases hr

theorem read_nonce_ok_keylen {h : MockHost} {addr : Bytes} {v : Nat}
    (hr : read_nonce h addr = Except.ok v) :
    (nonce_key addr).length ≤ MAX_KEY_LEN := by
  unfold read_nonce at hr
  split at hr
  next heq => exact state_get_ok_keylen heq
  next heq => exact state_get_ok_keylen heq
  next => cases hr

theorem toLe_length : ∀ n v, (toLe n v).length = n
  | 0, _ => rfl
  | n + 1, v => by simp [toLe, toLe_length n]

theorem u64_to_le_bytes_length (v : Nat) : (u64_to_le_bytes v).length = 8 := by
  simp [u64_to_le_bytes, toLe_length]

/-- Case analysis of `execute_transfer`: the frame facts always hold, and
any failure other than write-limit or out-of-gas leaves the overlay
unchanged (such failures occur before the first overlay write). -/
theorem execute_transfer_frame (i : Nat) (s t : Bytes) (a : Nat) (h0 : MockHost) :
    HostFrame h0 (execute_transfer i s t a h0).2 ∧
    (∀ e, (execute_transfer i s t a h0).1 = Except.error e →
      e ≠ ExecError.hostError ErrorCode.WriteLimit →
      (∀ l u, e ≠ ExecError.outOfGas l u) →
      (execute_transfer i s t a h0).2.overlay = h0.overlay) := by
  unfold execute_transfer
  cases hc1 : h0.gas_meter.consume (gas_cost_state_get (balance_key s).length) with
  | error e1 =>
    simp only [hc1]
    refine ⟨HostFrame.refl h0, ?_⟩
    intro e he _ hoog
    obtain ⟨l, u, rfl⟩ := consume_error_shape hc1
    injection he with he'
    exact absurd he'.symm (hoog l u)
  | ok m1 =>
    obtain ⟨hl1, hv1⟩ := consume_ok_spec hc1
    simp only [hc1]
    cases hrb1 : read_balance { h0 with gas_meter := m1 } s with
    | error e1 =>
      simp only [hrb1]
      refine ⟨⟨rfl, by simp [hl1], by simp [hv1]⟩, ?_⟩
      intro e _ _ _
      trivial
    | ok sender_balance =>
      simp only [hrb1]
      by_cases hins : sender_balance < a
      · rw [if_pos hins]
        refine ⟨⟨rfl, by simp [hl1], by simp [hv1]⟩, ?_⟩
        intro e _ _ _
        trivial
      · rw [if_neg hins]
        cases hc2 : m1.consume (gas_cost_state_get (balance_key t).length) with
        | error e2 =>
          simp only [hc2]
          refine ⟨⟨rfl, by simp [hl1], by simp [hv1]⟩, ?_⟩
          intro e he _ hoog
          obtain ⟨l, u, rfl⟩ := consume_error_shape hc2
          injection he with he'
          exact absurd he'.symm (hoog l u)
        | ok m2 =>
          obtain ⟨hl2, hv2⟩ := consume_ok_spec hc2
          simp only [hc2]
          cases hrb2 : read_balance { h0 with gas_meter := m2 } t with
          | error e2 =>
            simp only [hrb2]
            refine ⟨⟨rfl, by simp [hl1, hl2], by simp [hv1, hv2]; omega⟩, ?_⟩
            intro e _ _ _
            trivial
          | ok to_balance =>
            simp only [hrb2]
            by_cases hov : U64_MAX < to_balance + a
            · rw [if_pos hov]
              refine ⟨⟨rfl, by simp [hl1, hl2], by simp [hv1, hv2]; omega⟩, ?_⟩
              intro e _ _ _
              trivial
            · rw [if_neg hov]
              cases hc3 : m2.consume (gas_cost_state_set (balance_key s).length 8) with
              | error e3 =>
                simp only [hc3]
                refine ⟨⟨rfl, by simp [hl1, hl2], by simp [hv1, hv2]; omega⟩, ?_⟩
                intro e he _ hoog
                obtain ⟨l, u, rfl⟩ := consume_error_shape hc3
                injection he with he'
                exact absurd he'.symm (hoog l u)
              | ok m3 =>
                obtain ⟨hl3, hv3⟩ := consume_ok_spec hc3
                simp only [hc3]
                cases hw1 : write_balance { h0 with gas_meter := m3 } s
                    (sender_balance - a) with
                | error e3 =>
                  simp only [hw1]
                  refine ⟨⟨rfl, by simp [hl1, hl2, hl3],
                    by simp [hv1, hv2, hv3]; omega⟩, ?_⟩
                  intro e he hwl _
                  injection he with he'
                  subst he'
                  exact absurd (state_set_error_small
                    (read_balance_ok_keylen hrb1)
                    (by rw [u64_to_le_bytes_length]; decide) hw1) hwl
                | ok h4 =>
                  have h4eq := state_set_ok_eq hw1
                  subst h4eq
                  simp only [hw1]
                  cases hc4 : m3.consume (gas_cost_state_set (balance_key t).length 8) with
                  | error e4 =>
                    simp only [hc4]
                    refine ⟨⟨rfl, by simp [hl1, hl2, hl3],
                      by simp [hv1, hv2, hv3]; omega⟩, ?_⟩
                    intro e he _ hoog
                    obtain ⟨l, u, rfl⟩ := consume_error_shape hc4
                    injection he with he'
                    exact absurd he'.symm (hoog l u)
                  | ok m4 =>
                    obtain ⟨hl4, hv4⟩ := consume_ok_spec hc4
                    simp only [hc4]
                    cases hw2 : write_balance
                        { h0 with
                          overlay := StateOverlay.set h0.overlay (balance_key s)
                            (u64_to_le_bytes (sender_balance - a))
                          gas_meter := m4 } t (to_balance + a) with
                    | error e4 =>
                      simp only [hw2]
                      refine ⟨⟨rfl, by simp [hl1, hl2, hl3, hl4],
                        by simp [hv1, hv2, hv3, hv4]; omega⟩, ?_⟩
                      intro e he hwl _
                      injection he with he'
                      subst he'
                      exact absurd (state_set_error_small
                        (read_balance_ok_keylen hrb2)
                        (by rw [u64_to_le_bytes_length]; decide) hw2) hwl
                    | ok h6 =>
                      have h6eq := state_set_ok_eq hw2
                      subst h6eq
                      simp only [hw2]
                      refine ⟨⟨rfl, by simp [hl1, hl2, hl3, hl4],
                        by simp [hv1, hv2, hv3, hv4]; omega⟩, ?_⟩
                      intro e he _ _
                      cases he

set_option maxRecDepth 8000 in
set_option maxHeartbeats 1000000 in
/-- Case analysis of `process_transaction_inner`: frame facts always hold;
any failure other than write-limit or out-of-gas leaves the overlay
unchanged. -/
theorem process_inner_frame (i : Nat) (tx : DecodedTransaction) (h0 : MockHost) :
    HostFrame h0 (process_transaction_inner i tx h0).2 ∧
    (∀ e, (process_transaction_inner i tx h0).1 = Except.error e →
      e ≠ ExecError.hostError ErrorCode.WriteLimit →
      (∀ l u, e ≠ ExecError.outOfGas l u) →
      (process_transaction_inner i tx h0).2.overlay = h0.overlay) := by
  unfold process_transaction_inner
  cases hc1 : h0.gas_meter.consume G_VERIFY_ED25519 with
  | error e1 =>
    simp only [hc1]
    refine ⟨HostFrame.refl h0, ?_⟩
    intro e he _ hoog
    obtain ⟨l, u, rfl⟩ := consume_error_shape hc1
    injection he with he'
    exact absurd he'.symm (hoog l u)
  | ok m1 =>
    obtain ⟨hl1, hv1⟩ := consume_ok_spec hc1
    simp only [hc1]
    by_cases hsv : ({ h0 with gas_meter := m1 } : MockHost).verifyFn
        tx.signed_data tx.signature tx.public_key = false
    · rw [if_pos hsv]
      refine ⟨⟨rfl, by simp [hl1], by simp [hv1]⟩, ?_⟩
      intro e _ _ _
      trivial
    · rw [if_neg hsv]
      cases hc2 : m1.consume (gas_cost_state_get (nonce_key tx.sender).length) with
      | error e2 =>
        simp only [hc2]
        refine ⟨⟨rfl, by simp [hl1], by simp [hv1]⟩, ?_⟩
        intro e he _ hoog
        obtain ⟨l, u, rfl⟩ := consume_error_shape hc2
        injection he with he'
        exact absurd he'.symm (hoog l u)
      | ok m2 =>
        obtain ⟨hl2, hv2⟩ := consume_ok_spec hc2
        simp only [hc2]
        cases hrn : read_nonce { h0 with gas_meter := m2 } tx.sender with
        | error e2 =>
          simp only [hrn]
          refine ⟨⟨rfl, by simp [hl1, hl2], by simp [hv1, hv2]; omega⟩, ?_⟩
          intro e _ _ _
          trivial
        | ok current_nonce =>
          simp only [hrn]
          by_cases hnc : tx.nonce = current_nonce
          · rw [if_neg (by simp [hnc])]
            cases hp : tx.payload with
            | Transfer toAddr amount =>
              simp only [hp]
              obtain ⟨htf, htov⟩ :=
                execute_transfer_frame i tx.sender toAddr amount
                  { h0 with gas_meter := m2 }
              rcases het : execute_transfer i tx.sender toAddr amount
                  { h0 with gas_meter := m2 } with ⟨res, h3⟩
              simp only [het] at htf htov
              have hmid2 : HostFrame h0 { h0 with gas_meter := m2 } :=
                ⟨rfl, by simp [hl1, hl2], by simp [hv1, hv2]; omega⟩
              have hfr03 : HostFrame h0 h3 := HostFrame.trans hmid2 htf
              cases res with
              | error e3 =>
                simp only
                refine ⟨hfr03, ?_⟩
                intro e he hwl hoog
                injection he with he'
                subst he'
                exact htov _ rfl hwl hoog
              | ok events =>
                simp only
                cases hc3 : h3.gas_meter.consume
                    (gas_cost_state_set (nonce_key tx.sender).length 8) with
                | error e3 =>
                  simp only [hc3]
                  refine ⟨hfr03, ?_⟩
                  intro e he _ hoog
                  obtain ⟨l, u, rfl⟩ := consume_error_shape hc3
                  injection he with he'
                  exact absurd he'.symm (hoog l u)
                | ok m3 =>
                  obtain ⟨hl3, hv3⟩ := consume_ok_spec hc3
                  simp only [hc3]
                  cases hw : write_nonce { h3 with gas_meter := m3 } tx.sender
                      (current_nonce + 1) with
                  | error e3 =>
                    simp only [hw]
                    refine ⟨HostFrame.trans hfr03
                      ⟨rfl, by simp [hl3], by simp [hv3]⟩, ?_⟩
                    intro e he hwl _
                    injection he with he'
                    subst he'
                    exact absurd (state_set_error_small
                      (read_nonce_ok_keylen hrn)
                      (by rw [u64_to_le_bytes_length]; decide) hw) hwl
                  | ok h5 =>
                    have h5eq := state_set_ok_eq hw
                    subst h5eq
                    simp only [hw]
                    refine ⟨HostFrame.trans hfr03
                      ⟨rfl, by simp [hl3], by simp [hv3]⟩, ?_⟩
                    intro e he _ _
                    cases he
          · rw [if_pos (by simp [hnc])]
            refine ⟨⟨rfl, by simp [hl1, hl2], by simp [hv1, hv2]; omega⟩, ?_⟩
            intro e _ _ _
            trivial

theorem emit_event_ok_eq {h h' : MockHost} {e : Event}
    (he : h.emit_event e = Except.ok h') :
    h' = { h with events := h.events ++ [e] } := by
  unfold MockHost.emit_event at he
  split at he
  · cases he
  · cases he
    rfl

theorem emit_fold_spec (events : List Event) (h : MockHost) :
    (events.foldl
      (fun acc e =>
        match acc.emit_event e with
        | Except.ok acc' => acc'
        | Except.error _ => acc) h).gas_meter = h.gas_meter ∧
    (events.foldl
      (fun acc e =>
        match acc.emit_event e with
        | Except.ok acc' => acc'
        | Except.error _ => acc) h).overlay = h.overlay := by
  induction events generalizing h with
  | nil => exact ⟨rfl, rfl⟩
  | cons ev rest ih =>
    simp only [List.foldl_cons]
    cases hemit : h.emit_event ev with
    | ok h2 =>
      have h2eq := emit_event_ok_eq hemit
      subst h2eq
      exact ih _
    | error _ => exact ih h

/-- The receipt and the final host of `process_transaction`: the gas limit
is preserved, the receipt's `gas_used` records exactly the meter delta,
and on failure no event is emitted and — outside the out-of-gas and
write-limit cases — the overlay is unchanged. -/
theorem process_transaction_spec (i : Nat) (tx : DecodedTransaction) (h : MockHost) :
    (process_transaction i tx h).2.gas_meter.limit = h.gas_meter.limit ∧
    (process_transaction i tx h).2.gas_meter.consumed =
      h.gas_meter.consumed + (process_transaction i tx h).1.gas_used ∧
    ((process_transaction i tx h).1.success = false →
      (process_transaction i tx h).2.events = h.events ∧
      ((process_transaction i tx h).1.result_code ≠ 7 →
        (process_transaction i tx h).1.result_code ≠ 5 →
        (process_transaction i tx h).2.overlay = h.overlay)) := by
  obtain ⟨⟨hev, hlim, hmono⟩, hov⟩ := process_inner_frame i tx h
  unfold process_transaction
  rcases hin : process_transaction_inner i tx h with ⟨res, h1⟩
  simp only [hin] at hev hlim hmono hov
  cases res with
  | ok events =>
    simp only
    obtain ⟨hfg, _⟩ := emit_fold_spec events h1
    refine ⟨by rw [hfg]; exact hlim, ?_, ?_⟩
    · rw [hfg]
      omega
    · intro hfalse
      cases hfalse
  | error err =>
    simp only
    refine ⟨hlim, by omega, ?_⟩
    intro _
    refine ⟨hev, ?_⟩
    intro h7 h5
    refine hov err rfl ?_ ?_
    · intro hwl
      subst hwl
      exact h5 rfl
    · intro l u hoog
      subst hoog
      exact h7 rfl

/-! ## C2 — failed transfers and partial writes -/

/-- C2 counterexample: with gas limit 4000 and a funded sender, a transfer
of 4000 charges and performs the sender-balance overlay write, then fails
out-of-gas (result code 7) at the recipient-balance set charge — a failed
receipt with a partial overlay write left behind, contradicting the claim
that every failed receipt's failure occurs before any overlay write. -/
theorem C2_counterexample :
    (process_transaction 0 c2Tx c2Host).1.success = false ∧
    (process_transaction 0 c2Tx c2Host).1.result_code = 7 ∧
    c2Host.overlay.writes = [] ∧
    (process_transaction 0 c2Tx c2Host).2.overlay.writes =
      [(balance_key wSender, some (u64_to_le_bytes 6000))] := by
  refine ⟨by decide, by decide, by decide, by decide⟩

/-- C2 (amended): a transaction that produces a failed receipt emits no
event; and when the failure is not out-of-gas (code 7) and not
write-limit (code 5) — i.e. an invalid signature, a nonce mismatch,
insufficient balance, recipient-balance overflow, or a corrupt stored
value, all of which strike before the first overlay write — the state
overlay after the failed transaction equals the overlay before it.  An
out-of-gas or write-limit failure at a charge point after the
sender-balance write may leave that write in the overlay. -/
theorem C2_transfer_failure_no_partial_writes (i : Nat) (tx : DecodedTransaction)
    (h : MockHost) (hfail : (process_transaction i tx h).1.success = false) :
    (process_transaction i tx h).2.events = h.events ∧
    ((process_transaction i tx h).1.result_code ≠ 7 →
      (process_transaction i tx h).1.result_code ≠ 5 →
      (process_transaction i tx h).2.overlay = h.overlay) := by
  obtain ⟨hev, hrest⟩ := (process_transaction_spec i tx h).2.2 hfail
  exact ⟨hev, hrest⟩

/-- Witness for C2 (amended): an invalid-signature failure (result code 8)
leaves events and overlay untouched. -/
theorem C2_transfer_failure_witness :
    (process_transaction 0 w2Tx w2Host).1.success = false ∧
    (process_transaction 0 w2Tx w2Host).1.result_code = 8 ∧
    (process_transaction 0 w2Tx w2Host).2.events = w2Host.events ∧
    (process_transaction 0 w2Tx w2Host).2.overlay = w2Host.overlay :=
  ⟨by decide, by decide,
    (C2_transfer_failure_no_partial_writes 0 w2Tx w2Host (by decide)).1,
    (C2_transfer_failure_no_partial_writes 0 w2Tx w2Host (by decide)).2
      (by decide) (by decide)⟩

/-! ## Executor loop lemmas -/

set_option maxRecDepth 8000 in
theorem execTxLoop_gas : ∀ (txs : List Bytes) (idx : Nat) (h : MockHost),
    (execTxLoop txs idx h).2.1.gas_meter.limit = h.gas_meter.limit ∧
    (execTxLoop txs idx h).2.1.gas_meter.consumed =
      h.gas_meter.consumed + ((execTxLoop txs idx h).1.map Receipt.gas_used).sum
  | [], _, h => by simp [execTxLoop]
  | raw :: rest, idx, h => by
    unfold execTxLoop
    cases hdec : decode_transaction raw with
    | error e =>
      simp only [hdec]
      obtain ⟨hl, hc⟩ := execTxLoop_gas rest (idx + 1) h
      simp only [List.map_cons, List.sum_cons, decodeFailReceipt]
      exact ⟨hl, by omega⟩
    | ok tx =>
      simp only [hdec]
      obtain ⟨hpl, hpc, _⟩ := process_transaction_spec idx tx h
      cases hexh : (process_transaction idx tx h).2.gas_meter.is_exhausted with
      | true =>
        simp only [hexh, if_pos]
        exact ⟨hpl, by simp [hpc]⟩
      | false =>
        simp only [hexh, Bool.false_eq_true, if_neg, if_false]
        obtain ⟨hl, hc⟩ := execTxLoop_gas rest (idx + 1) (process_transaction idx tx h).2
        simp only [List.map_cons, List.sum_cons]
        exact ⟨hl.trans hpl, by omega⟩

set_option maxRecDepth 8000 in
theorem execTxLoop_prefix : ∀ (txs : List Bytes) (idx : Nat) (h : MockHost),
    (execTxLoop txs idx h).2.2 = true →
    ∃ k, 0 < k ∧ k ≤ txs.length ∧
      (execTxLoop txs idx h).1 = (execTxStraight (txs.take k) idx h).1 ∧
      (execTxLoop txs idx h).2.1 = (execTxStraight (txs.take k) idx h).2 ∧
      (execTxStraight (txs.take k) idx h).2.gas_meter.is_exhausted = true
  | [], _, _ => by simp [execTxLoop]
  | raw :: rest, idx, h => by
    unfold execTxLoop
    cases hdec : decode_transaction raw with
    | error e =>
      simp only [hdec]
      intro hflag
      obtain ⟨k, hk0, hkle, hrec, hhost, hexh⟩ := execTxLoop_prefix rest (idx + 1) h hflag
      refine ⟨k + 1, by omega, by simp; omega, ?_, ?_, ?_⟩
      · simp only [List.take_succ_cons]
        unfold execTxStraight
        simp only [hdec]
        exact congrArg _ hrec
      · simp only [List.take_succ_cons]
        unfold execTxStraight
        simp only [hdec]
        exact hhost
      · simp only [List.take_succ_cons]
        unfold execTxStraight
        simp only [hdec]
        exact hexh
    | ok tx =>
      simp only [hdec]
      cases hexh : (process_transaction idx tx h).2.gas_meter.is_exhausted with
      | true =>
        simp only [hexh, if_pos]
        intro _
        refine ⟨1, by omega, by simp, ?_, ?_, ?_⟩
        · simp only [List.take_succ_cons, List.take_zero]
          unfold execTxStraight
          simp only [hdec]
          rfl
        · simp only [List.take_succ_cons, List.take_zero]
          unfold execTxStraight
          simp only [hdec]
          rfl
        · simp only [List.take_succ_cons, List.take_zero]
          unfold execTxStraight
          simp only [hdec]
          exact hexh
      | false =>
        simp only [hexh, Bool.false_eq_true, if_neg, if_false]
        intro hflag
        obtain ⟨k, hk0, hkle, hrec, hhost, hexh2⟩ :=
          execTxLoop_prefix rest (idx + 1) (process_transaction idx tx h).2 hflag
        refine ⟨k + 1, by omega, by simp; omega, ?_, ?_, ?_⟩
        · simp only [List.take_succ_cons]
          unfold execTxStraight
          simp only [hdec]
          exact congrArg _ hrec
        · simp only [List.take_succ_cons]
          unfold execTxStraight
          simp only [hdec]
          exact hhost
        · simp only [List.take_succ_cons]
          unfold execTxStraight
          simp only [hdec]
          exact hexh2

/-! ## C4 — gas conservation -/

set_option maxRecDepth 8000 in
/-- C4: for a block whose response has status Ok (run against a host with
a fresh gas meter, as every block instantiates), the receipts' `gas_used`
values sum exactly to the response's `gas_used`: decode-failure receipts
carry 0 and consume nothing, and each processed transaction's receipt
records exactly the meter delta across its processing, event emission
included. -/
theorem C4_gas_conservation (H : Bytes → Bytes) (req : ExecutionRequest)
    (h : MockHost) (hstart : h.gas_meter.consumed = 0)
    (hok : (execute_block H req h).1.status = ExecutionStatus.Ok) :
    ((execute_block H req h).1.receipts.map Receipt.gas_used).sum =
      (execute_block H req h).1.gas_used := by
  unfold execute_block at hok ⊢
  rcases hval : validate_request req with e | u
  · rw [hval] at hok
    cases e <;> simp [ExecutionResponse.failure] at hok
  · rw [hval] at hok
    dsimp only at hok ⊢
    split at hok
    · simp at hok
    · next hcond =>
        split
        · next hcond2 => exact absurd hcond2 hcond
        · dsimp only
          obtain ⟨_, hc⟩ := execTxLoop_gas req.transactions 0 h
          omega

set_option maxRecDepth 100000 in
/-- Witness for C4: the single-transaction block of the C9 scenario. -/
theorem C4_gas_conservation_witness :
    c9Host.gas_meter.consumed = 0 ∧
    (execute_block wHashFn c9Req c9Host).1.status = ExecutionStatus.Ok ∧
    ((execute_block wHashFn c9Req c9Host).1.receipts.map Receipt.gas_used).sum =
      (execute_block wHashFn c9Req c9Host).1.gas_used :=
  ⟨by decide, by decide,
    C4_gas_conservation wHashFn c9Req c9Host (by decide) (by decide)⟩

/-! ## C1 — out-of-gas atomicity -/

set_option maxRecDepth 8000 in
/-- C1: whenever `execute_block` answers with status OutOfGas, the
response's `new_state_root` equals the request's `prev_state_root`, its
event list is empty, and its receipts are exactly the receipts of
straight-line processing of the first `k` transactions (the prefix up to
and including the transaction after which the meter was exhausted),
returned unchanged. -/
theorem C1_out_of_gas_atomicity (H : Bytes → Bytes) (req : ExecutionRequest)
    (h : MockHost)
    (hoog : (execute_block H req h).1.status = ExecutionStatus.OutOfGas) :
    (execute_block H req h).1.new_state_root = req.prev_state_root ∧
    (execute_block H req h).1.events = [] ∧
    ∃ k, 0 < k ∧ k ≤ req.transactions.length ∧
      (execute_block H req h).1.receipts =
        (execTxStraight (req.transactions.take k) 0 h).1 ∧
      (execTxStraight (req.transactions.take k) 0 h).2.gas_meter.is_exhausted
        = true := by
  unfold execute_block at hoog ⊢
  rcases hval : validate_request req with e | u
  · rw [hval] at hoog
    cases e <;> simp [ExecutionResponse.failure] at hoog
  · rw [hval] at hoog
    dsimp only at hoog ⊢
    split at hoog
    · next hcond =>
        split
        · dsimp only
          obtain ⟨k, hk0, hkle, hrec, _, hexh⟩ :=
            execTxLoop_prefix req.transactions 0 h hcond
          exact ⟨rfl, rfl, k, hk0, hkle, hrec, hexh⟩
        · next hcond2 => exact absurd hcond hcond2
    · simp at hoog

set_option maxRecDepth 100000 in
/-- Witness for C1: a gas limit of 2000 is exhausted by the first
transaction's signature-verification charge. -/
theorem C1_out_of_gas_atomicity_witness :
    (execute_block wHashFn oogReq oogHost).1.status = ExecutionStatus.OutOfGas ∧
    ((execute_block wHashFn oogReq oogHost).1.new_state_root =
        oogReq.prev_state_root ∧
      (execute_block wHashFn oogReq oogHost).1.events = [] ∧
      ∃ k, 0 < k ∧ k ≤ oogReq.transactions.length ∧
        (execute_block wHashFn oogReq oogHost).1.receipts =
          (execTxStraight (oogReq.transactions.take k) 0 oogHost).1 ∧
        (execTxStraight (oogReq.transactions.take k) 0 oogHost).2.gas_meter.is_exhausted
          = true) :=
  ⟨by decide, C1_out_of_gas_atomicity wHashFn oogReq oogHost (by decide)⟩

/-! ## C9 — out-of-gas boundary between transaction and block level -/

theorem execTxLoop_flag_exhausted : ∀ (txs : List Bytes) (idx : Nat) (h : MockHost),
    (execTxLoop txs idx h).2.2 = true →
    (execTxLoop txs idx h).2.1.gas_meter.is_exhausted = true
  | [], _, _ => by simp [execTxLoop]
  | raw :: rest, idx, h => by
    unfold execTxLoop
    cases hdec : decode_transaction raw with
    | error e =>
      simp only [hdec]
      exact execTxLoop_flag_exhausted rest (idx + 1) h
    | ok tx =>
      simp only [hdec]
      cases hexh : (process_transaction idx tx h).2.gas_meter.is_exhausted with
      | true =>
        simp only [hexh, if_pos]
        intro _
        trivial
      | false =>
        simp only [hexh, Bool.false_eq_true, if_neg, if_false]
        exact execTxLoop_flag_exhausted rest (idx + 1) (process_transaction idx tx h).2

set_option maxRecDepth 100000 in
/-- C9: block execution stops with status OutOfGas only when the meter is
exhausted (`consumed ≥ limit`) after a transaction finishes — whenever the
response status is OutOfGas the final host's meter satisfies
`is_exhausted`.  And a transaction can fail with result code 7 while
leaving `consumed` strictly below the limit: in the concrete scenario
(gas limit 4000, transfer of 3000 from a balance of 10000) the single
transaction fails out-of-gas at the recipient-balance set charge with
3658 < 4000 consumed, `execute_block` continues past it and returns
status Ok, and that transaction's sender-balance overlay write is
included in the tree whose root the response reports. -/
theorem C9_out_of_gas_boundary :
    (∀ (H : Bytes → Bytes) (req : ExecutionRequest) (h : MockHost),
      (execute_block H req h).1.status = ExecutionStatus.OutOfGas →
      (execute_block H req h).2.gas_meter.is_exhausted = true) ∧
    ((execute_block wHashFn c9Req c9Host).1.status = ExecutionStatus.Ok ∧
      (execute_block wHashFn c9Req c9Host).1.receipts =
        [{ tx_index := 0, success := false, gas_used := 3658, result_code := 7,
           return_data := [] }] ∧
      (execute_block wHashFn c9Req c9Host).2.gas_meter.consumed = 3658 ∧
      (execute_block wHashFn c9Req c9Host).2.gas_meter.limit = 4000 ∧
      alLookup (balance_key wSender)
        (execute_block wHashFn c9Req c9Host).2.overlay.writes =
        some (some (u64_to_le_bytes 7000)) ∧
      (execute_block wHashFn c9Req c9Host).1.new_state_root =
        (SparseMerkleTree.new.apply_writes
          (execute_block wHashFn c9Req c9Host).2.overlay.writes).root wHashFn) := by
  constructor
  · intro H req h hoog
    unfold execute_block at hoog ⊢
    rcases hval : validate_request req with e | u
    · rw [hval] at hoog
      cases e <;> simp [ExecutionResponse.failure] at hoog
    · rw [hval] at hoog
      dsimp only at hoog ⊢
      split at hoog
      · next hcond =>
          split
          · dsimp only
            exact execTxLoop_flag_exhausted req.transactions 0 h hcond
          · next hcond2 => exact absurd hcond hcond2
      · simp at hoog
  · refine ⟨by decide, by decide, by decide, by decide, by decide, by decide⟩

set_option maxRecDepth 100000 in
/-- Witness for C9's universal part: the gas-limit-2000 block ends with
status OutOfGas and an exhausted meter. -/
theorem C9_out_of_gas_boundary_witness :
    (execute_block wHashFn oogReq oogHost).1.status = ExecutionStatus.OutOfGas ∧
    (execute_block wHashFn oogReq oogHost).2.gas_meter.is_exhausted = true :=
  ⟨by decide, C9_out_of_gas_boundary.1 wHashFn oogReq oogHost (by decide)⟩

/-! ## C10 — the state root never reads committed state -/

theorem apply_writes_tombstones_empty :
    ∀ (writes : List (Bytes × Option Bytes)),
      (∀ p ∈ writes, p.2 = none) →
      (SparseMerkleTree.new.apply_writes writes).entries = [] := by
  have main : ∀ (writes : List (Bytes × Option Bytes)) (t : SparseMerkleTree),
      t.entries = [] → (∀ p ∈ writes, p.2 = none) →
      (t.apply_writes writes).entries = [] := by
    intro writes
    induction writes with
    | nil => intro t ht _; exact ht
    | cons p rest ih =>
      intro t ht hall
      have hp : p.2 = none := hall p (by simp)
      unfold SparseMerkleTree.apply_writes at *
      simp only [List.foldl_cons]
      rw [hp]
      refine ih _ ?_ ?_
      · simp only [SparseMerkleTree.deleteKey, ht, sortedRemove]
      · intro q hq
        exact hall q (by simp [hq])
  intro writes hall
  exact main writes SparseMerkleTree.new rfl hall

set_option maxRecDepth 8000 in
/-- C10: the new state root is computed from the overlay writes alone.  If
the final overlay is non-empty but holds only delete tombstones, every
tombstone removes its key from an initially empty tree, so a status-Ok
response reports the 32 zero bytes (the empty-tree root) as
`new_state_root`, whatever `prev_state_root` was. -/
theorem C10_root_from_overlay_alone (H : Bytes → Bytes) (req : ExecutionRequest)
    (h : MockHost)
    (hok : (execute_block H req h).1.status = ExecutionStatus.Ok)
    (hne : (execute_block H req h).2.overlay.writes ≠ [])
    (htomb : ∀ p ∈ (execute_block H req h).2.overlay.writes, p.2 = none) :
    (execute_block H req h).1.new_state_root = ZERO_HASH := by
  unfold execute_block at hok hne htomb ⊢
  rcases hval : validate_request req with e | u
  · rw [hval] at hok
    cases e <;> simp [ExecutionResponse.failure] at hok
  · rw [hval] at hok hne htomb
    dsimp only at hok hne htomb ⊢
    split at hok
    · simp at hok
    · next hcond =>
        split at hne
        · next hcond2 => exact absurd hcond2 hcond
        · split at htomb
          · next hcond2 => exact absurd hcond2 hcond
          · split
            · next hcond2 => exact absurd hcond2 hcond
            · dsimp only at hne htomb ⊢
              have hempty := apply_writes_tombstones_empty _ htomb
              unfold compute_state_root
              rw [if_neg (by simpa [List.isEmpty_iff] using hne)]
              unfold SparseMerkleTree.root
              rw [hempty]

set_option maxRecDepth 100000 in
/-- Witness for C10: an overlay holding a single tombstone yields the
zero root even though `prev_state_root` is non-zero. -/
theorem C10_root_from_overlay_alone_witness :
    (execute_block wHashFn w10Req w10Host).1.status = ExecutionStatus.Ok ∧
    (execute_block wHashFn w10Req w10Host).2.overlay.writes ≠ [] ∧
    w10Req.prev_state_root ≠ ZERO_HASH ∧
    (execute_block wHashFn w10Req w10Host).1.new_state_root = ZERO_HASH :=
  ⟨by decide, by decide, by decide,
    C10_root_from_overlay_alone wHashFn w10Req w10Host (by decide) (by decide)
      (by decide)⟩

/-! ## Byte-order and sorted-association-list lemmas (for C6) -/

theorem bytesLt_irrefl : ∀ a : Bytes, bytesLt a a = false
  | [] => rfl
  | _ :: xs => by simp [bytesLt, bytesLt_irrefl xs]

theorem bytesLt_trans : ∀ a b c : Bytes,
    bytesLt a b = true → bytesLt b c = true → bytesLt a c = true
  | [], [], _, hab, _ => by simp [bytesLt] at hab
  | _ :: _, [], _, hab, _ => by simp [bytesLt] at hab
  | [], _ :: _, [], _, hbc => by simp [bytesLt] at hbc
  | _ :: _, _ :: _, [], _, hbc => by simp [bytesLt] at hbc
  | [], _ :: _, _ :: _, _, _ => rfl
  | a :: as, b :: bs, c :: cs, hab, hbc => by
    simp only [bytesLt] at hab hbc ⊢
    split_ifs at hab hbc ⊢ <;>
      first
      | rfl
      | omega
      | exact bytesLt_trans as bs cs hab hbc

theorem bytesLt_connex : ∀ a b : Bytes,
    bytesLt a b = false → bytesLt b a = false → a = b
  | [], [], _, _ => rfl
  | [], _ :: _, hab, _ => by simp [bytesLt] at hab
  | _ :: _, [], _, hba => by simp [bytesLt] at hba
  | a :: as, b :: bs, hab, hba => by
    simp only [bytesLt] at hab hba
    split_ifs at hab hba
    first
    | simp at hab
    | simp at hba
    | (have hv : a = b := by omega
       subst hv
       rw [bytesLt_connex as bs hab hba])

theorem sortedInsert_mem {α : Type} (k : Bytes) (v : α) :
    ∀ (l : List (Bytes × α)) (p : Bytes × α),
      p ∈ sortedInsert k v l → p = (k, v) ∨ p ∈ l
  | [], p, hp => by
    simp only [sortedInsert, List.mem_singleton] at hp
    exact Or.inl hp
  | (k', v') :: rest, p, hp => by
    unfold sortedInsert at hp
    split_ifs at hp with h1 h2
    · rcases List.mem_cons.mp hp with h | h
      · exact Or.inl h
      · exact Or.inr h
    · rcases List.mem_cons.mp hp with h | h
      · exact Or.inl h
      · exact Or.inr (List.mem_cons_of_mem _ h)
    · rcases List.mem_cons.mp hp with h | h
      · exact Or.inr (by simp [h])
      · rcases sortedInsert_mem k v rest p h with h' | h'
        · exact Or.inl h'
        · exact Or.inr (List.mem_cons_of_mem _ h')

theorem sortedInsert_sorted {α : Type} (k : Bytes) (v : α) :
    ∀ l : List (Bytes × α), SortedByKey l → SortedByKey (sortedInsert k v l)
  | [], _ => by simp [sortedInsert, SortedByKey]
  | (k', v') :: rest, hs => by
    obtain ⟨hb, hrest⟩ := hs
    unfold sortedInsert
    split_ifs with h1 h2
    · refine ⟨?_, hb, hrest⟩
      intro p hp
      rcases List.mem_cons.mp hp with h | h
      · rw [h]
        exact h1
      · exact bytesLt_trans _ _ _ h1 (hb p h)
    · subst h2
      exact ⟨hb, hrest⟩
    · have hlt : bytesLt k' k = true := by
        cases hkk : bytesLt k' k with
        | true => rfl
        | false =>
          exact absurd (bytesLt_connex k k' (by simpa using h1) hkk) h2
      refine ⟨?_, sortedInsert_sorted k v rest hrest⟩
      intro p hp
      rcases sortedInsert_mem k v rest p hp with h | h
      · rw [h]
        exact hlt
      · exact hb p h

theorem sortedRemove_subset {α : Type} (k : Bytes) :
    ∀ (l : List (Bytes × α)) (p : Bytes × α), p ∈ sortedRemove k l → p ∈ l
  | [], _, hp => by simp [sortedRemove] at hp
  | (k', v') :: rest, p, hp => by
    unfold sortedRemove at hp
    split_ifs at hp with h1
    · exact List.mem_cons_of_mem _ hp
    · rcases List.mem_cons.mp hp with h | h
      · simp [h]
      · exact List.mem_cons_of_mem _ (sortedRemove_subset k rest p h)

theorem sortedRemove_sorted {α : Type} (k : Bytes) :
    ∀ l : List (Bytes × α), SortedByKey l → SortedByKey (sortedRemove k l)
  | [], _ => trivial
  | (k', v') :: rest, hs => by
    obtain ⟨hb, hrest⟩ := hs
    unfold sortedRemove
    split_ifs with h1
    · exact hrest
    · refine ⟨?_, sortedRemove_sorted k rest hrest⟩
      intro p hp
      exact hb p (sortedRemove_subset k rest p hp)

theorem alLookup_none_of_bound {α : Type} (k0 k : Bytes) :
    ∀ l : List (Bytes × α),
      (∀ p ∈ l, bytesLt k0 p.1 = true) →
      (bytesLt k k0 = true ∨ k = k0) → alLookup k l = none
  | [], _, _ => rfl
  | (k', v') :: rest, hb, hk => by
    unfold alLookup
    have hlt : bytesLt k0 k' = true := hb (k', v') (by simp)
    rw [if_neg ?_, alLookup_none_of_bound k0 k rest (fun p hp => hb p (by simp [hp])) hk]
    intro hkk
    subst hkk
    rcases hk with h | h
    · have := bytesLt_trans _ _ _ h hlt
      rw [bytesLt_irrefl] at this
      cases this
    · subst h
      rw [bytesLt_irrefl] at hlt
      cases hlt

theorem sorted_lookup_ext {α : Type} :
    ∀ l1 l2 : List (Bytes × α), SortedByKey l1 → SortedByKey l2 →
      (∀ k, alLookup k l1 = alLookup k l2) → l1 = l2
  | [], [], _, _, _ => rfl
  | [], (k2, v2) :: t2, _, _, hl => by
    have := hl k2
    simp [alLookup] at this
  | (k1, v1) :: t1, [], _, _, hl => by
    have := hl k1
    simp [alLookup] at this
  | (k1, v1) :: t1, (k2, v2) :: t2, hs1, hs2, hl => by
    obtain ⟨hb1, ht1⟩ := hs1
    obtain ⟨hb2, ht2⟩ := hs2
    have hk : k1 = k2 := by
      by_contra hne
      cases hlt : bytesLt k1 k2 with
      | true =>
        have h1 := hl k1
        rw [alLookup, alLookup, if_pos rfl, if_neg hne,
          alLookup_none_of_bound k2 k1 t2 hb2 (Or.inl hlt)] at h1
        cases h1
      | false =>
        have hlt2 : bytesLt k2 k1 = true := by
          cases h2 : bytesLt k2 k1 with
          | true => rfl
          | false => exact absurd (bytesLt_connex _ _ hlt h2) hne
        have h1 := hl k2
        rw [alLookup, alLookup, if_pos rfl, if_neg (Ne.symm hne),
          alLookup_none_of_bound k1 k2 t1 hb1 (Or.inl hlt2)] at h1
        cases h1
    subst hk
    have hv : v1 = v2 := by
      have := hl k1
      simp [alLookup] at this
      exact this
    subst hv
    have htail : t1 = t2 := by
      refine sorted_lookup_ext t1 t2 ht1 ht2 ?_
      intro k
      by_cases hkk : k = k1
      · subst hkk
        rw [alLookup_none_of_bound k k t1 hb1 (Or.inr rfl),
          alLookup_none_of_bound k k t2 hb2 (Or.inr rfl)]
      · have := hl k
        rw [alLookup, alLookup, if_neg hkk, if_neg hkk] at this
        exact this
    rw [htail]

theorem applyOps_sorted (ops : List MerkleOp) : SortedByKey (applyOps ops).entries := by
  have main : ∀ (ops : List MerkleOp) (t : SparseMerkleTree),
      SortedByKey t.entries →
      SortedByKey (ops.foldl
        (fun t op =>
          match op with
          | MerkleOp.set k v => t.insert k v
          | MerkleOp.del k => t.deleteKey k) t).entries := by
    intro ops
    induction ops with
    | nil => intro t ht; exact ht
    | cons op rest ih =>
      intro t ht
      simp only [List.foldl_cons]
      cases op with
      | set k v => exact ih _ (sortedInsert_sorted k v _ ht)
      | del k => exact ih _ (sortedRemove_sorted k _ ht)
  exact main ops SparseMerkleTree.new trivial

/-! ## C6 — Merkle root construction and order independence -/

/-- C6: for the trees built by any construction sequences, the root is: 32
zero bytes for the empty entry set; otherwise the bottom-up pairing (odd
trailing node promoted) of the leaves `H(0x00 ‖ key_len_le32 ‖ key ‖
value)` taken over the entries, which are maintained in strictly
ascending key order; consequently, two construction sequences yielding
the same final key-value set produce equal roots. -/
theorem C6_merkle_root_deterministic (H : Bytes → Bytes)
    (ops ops' : List MerkleOp) :
    ((applyOps ops).entries = [] → (applyOps ops).root H = ZERO_HASH) ∧
    ((applyOps ops).entries ≠ [] →
      (applyOps ops).root H =
        compute_root_from_leaves H
          ((applyOps ops).entries.map
            (fun kv => H (0 :: (toLe 4 kv.1.length ++ kv.1 ++ kv.2))))) ∧
    SortedByKey (applyOps ops).entries ∧
    ((∀ k, (applyOps ops).get k = (applyOps ops').get k) →
      (applyOps ops).root H = (applyOps ops').root H) := by
  refine ⟨?_, ?_, applyOps_sorted ops, ?_⟩
  · intro hempty
    unfold SparseMerkleTree.root
    rw [hempty]
  · intro hne
    unfold SparseMerkleTree.root
    cases hE : (applyOps ops).entries with
    | nil => exact absurd hE hne
    | cons p rest => rfl
  · intro hget
    have hE : (applyOps ops).entries = (applyOps ops').entries :=
      sorted_lookup_ext _ _ (applyOps_sorted ops) (applyOps_sorted ops') hget
    have htree : applyOps ops = applyOps ops' := by
      calc applyOps ops = ⟨(applyOps ops).entries⟩ := rfl
        _ = ⟨(applyOps ops').entries⟩ := by rw [hE]
        _ = applyOps ops' := rfl
    rw [htree]

/-- Witness for C6: the two concrete construction sequences of
`w6Ops1`/`w6Ops2` have equal lookups and hence equal roots. -/
theorem C6_merkle_root_deterministic_witness :
    (∀ k, (applyOps w6Ops1).get k = (applyOps w6Ops2).get k) ∧
    (applyOps w6Ops1).root wHashFn = (applyOps w6Ops2).root wHashFn :=
  have htree : applyOps w6Ops1 = applyOps w6Ops2 := by decide
  have hget : ∀ k, (applyOps w6Ops1).get k = (applyOps w6Ops2).get k :=
    fun k => congrArg (fun t => t.get k) htree
  ⟨hget, (C6_merkle_root_deterministic wHashFn w6Ops1 w6Ops2).2.2.2 hget⟩

/-! ## Little-endian and reader/writer lemmas (for C5) -/

theorem leVal_toLe : ∀ (n v : Nat), v < 2 ^ (8 * n) → leVal (toLe n v) = v
  | 0, v, h => by
    simp only [toLe, leVal]
    omega
  | n + 1, v, h => by
    have hb : v / 256 < 2 ^ (8 * n) := by
      rw [Nat.div_lt_iff_lt_mul (by norm_num)]
      calc v < 2 ^ (8 * (n + 1)) := h
        _ = 2 ^ (8 * n) * 256 := by
          rw [show 8 * (n + 1) = 8 * n + 8 by ring, pow_add]
          norm_num
    simp only [toLe, leVal, leVal_toLe n (v / 256) hb]
    omega

theorem toLe_bytes_lt : ∀ (n v : Nat), ∀ x ∈ toLe n v, x < 256
  | 0, _, x, hx => by simp [toLe] at hx
  | n + 1, v, x, hx => by
    simp only [toLe, List.mem_cons] at hx
    rcases hx with h | h
    · omega
    · exact toLe_bytes_lt n (v / 256) x h

theorem toLe_leVal : ∀ (n : Nat) (bs : Bytes), bs.length = n →
    (∀ x ∈ bs, x < 256) → toLe n (leVal bs) = bs
  | 0, [], _, _ => rfl
  | 0, _ :: _, hlen, _ => by simp at hlen
  | _ + 1, [], hlen, _ => by simp at hlen
  | n + 1, b :: rest, hlen, hlt => by
    simp only [toLe, leVal]
    have hb : b < 256 := hlt b (by simp)
    have h1 : (b + 256 * leVal rest) % 256 = b := by omega
    have h2 : (b + 256 * leVal rest) / 256 = leVal rest := by omega
    rw [h1, h2, toLe_leVal n rest (by simpa using hlen)
      (fun x hx => hlt x (by simp [hx]))]

theorem leVal_lt : ∀ bs : Bytes, (∀ x ∈ bs, x < 256) →
    leVal bs < 2 ^ (8 * bs.length)
  | [], _ => by simp [leVal]
  | b :: rest, h => by
    simp only [leVal, List.length_cons]
    have hb : b < 256 := h b (by simp)
    have ih := leVal_lt rest (fun x hx => h x (by simp [hx]))
    have hp : 2 ^ (8 * (rest.length + 1)) = 2 ^ (8 * rest.length) * 256 := by
      rw [show 8 * (rest.length + 1) = 8 * rest.length + 8 by ring, pow_add]
      norm_num
    omega

theorem readBytesN_exact (l r : Bytes) :
    readBytesN l.length (l ++ r) = Except.ok (l, r) := by
  unfold readBytesN
  rw [if_pos (by simp)]
  rw [List.take_left, List.drop_left]

theorem readBytesN_len (n : Nat) (l r : Bytes) (h : l.length = n) :
    readBytesN n (l ++ r) = Except.ok (l, r) := by
  subst h
  exact readBytesN_exact l r

theorem readBytesN_inv {n : Nat} {b x r : Bytes}
    (h : readBytesN n b = Except.ok (x, r)) : x ++ r = b ∧ x.length = n := by
  unfold readBytesN at h
  split_ifs at h with hle
  cases h
  exact ⟨List.take_append_drop n b, List.length_take_of_le hle⟩

theorem WFBytes_append_left {a b : Bytes} (h : WFBytes (a ++ b)) : WFBytes a :=
  fun x hx => h x (by simp [hx])

theorem WFBytes_append_right {a b : Bytes} (h : WFBytes (a ++ b)) : WFBytes b :=
  fun x hx => h x (by simp [hx])

theorem readU8_write (v : Nat) (r : Bytes) (hv : v < 256) :
    readU8 (writeU8 v ++ r) = Except.ok (v, r) := by
  have hw : writeU8 v = [v] := by
    simp only [writeU8]
    congr 1
    omega
  rw [hw]
  unfold readU8
  rw [readBytesN_len 1 [v] r rfl]
  rfl

theorem readU8_inv {b : Bytes} {v : Nat} {r : Bytes}
    (h : readU8 b = Except.ok (v, r)) (hwf : WFBytes b) :
    writeU8 v ++ r = b ∧ v < 256 := by
  unfold readU8 at h
  cases hrb : readBytesN 1 b with
  | error e => rw [hrb] at h; cases h
  | ok p =>
    rw [hrb] at h
    obtain ⟨x, r'⟩ := p
    obtain ⟨hxr, hxlen⟩ := readBytesN_inv hrb
    cases h
    match x, hxlen with
    | [y], _ =>
      have hy : y < 256 := hwf y (by rw [← hxr]; simp)
      refine ⟨?_, by simpa using hy⟩
      rw [← hxr]
      simp only [writeU8, List.headD]
      congr 2
      omega

theorem readU32_write (v : Nat) (r : Bytes) (hv : v < 2 ^ 32) :
    readU32 (writeU32 v ++ r) = Except.ok (v, r) := by
  unfold readU32 writeU32
  rw [readBytesN_len 4 (toLe 4 v) r (toLe_length 4 v)]
  dsimp only
  rw [leVal_toLe 4 v (by norm_num at hv ⊢; omega)]

theorem readU32_inv {b : Bytes} {v : Nat} {r : Bytes}
    (h : readU32 b = Except.ok (v, r)) (hwf : WFBytes b) :
    writeU32 v ++ r = b ∧ v < 2 ^ 32 := by
  unfold readU32 at h
  cases hrb : readBytesN 4 b with
  | error e => rw [hrb] at h; cases h
  | ok p =>
    rw [hrb] at h
    obtain ⟨x, r'⟩ := p
    obtain ⟨hxr, hxlen⟩ := readBytesN_inv hrb
    cases h
    have hxwf : ∀ y ∈ x, y < 256 := fun y hy => hwf y (by rw [← hxr]; simp [hy])
    constructor
    · rw [← hxr]
      simp only [writeU32]
      rw [toLe_leVal 4 x hxlen hxwf]
    · have := leVal_lt x hxwf
      rw [hxlen] at this
      norm_num at this ⊢
      omega

theorem readU64_write (v : Nat) (r : Bytes) (hv : v < 2 ^ 64) :
    readU64 (writeU64 v ++ r) = Except.ok (v, r) := by
  unfold readU64 writeU64
  rw [readBytesN_len 8 (toLe 8 v) r (toLe_length 8 v)]
  dsimp only
  rw [leVal_toLe 8 v (by norm_num at hv ⊢; omega)]

theorem readU64_inv {b : Bytes} {v : Nat} {r : Bytes}
    (h : readU64 b = Except.ok (v, r)) (hwf : WFBytes b) :
    writeU64 v ++ r = b ∧ v < 2 ^ 64 := by
  unfold readU64 at h
  cases hrb : readBytesN 8 b with
  | error e => rw [hrb] at h; cases h
  | ok p =>
    rw [hrb] at h
    obtain ⟨x, r'⟩ := p
    obtain ⟨hxr, hxlen⟩ := readBytesN_inv hrb
    cases h
    have hxwf : ∀ y ∈ x, y < 256 := fun y hy => hwf y (by rw [← hxr]; simp [hy])
    constructor
    · rw [← hxr]
      simp only [writeU64]
      rw [toLe_leVal 8 x hxlen hxwf]
    · have := leVal_lt x hxwf
      rw [hxlen] at this
      norm_num at this ⊢
      omega

theorem readBool_write (v : Bool) (r : Bytes) :
    readBool (writeBool v ++ r) = Except.ok (v, r) := by
  cases v
  · show readBool ([0] ++ r) = Except.ok (false, r)
    unfold readBool
    rw [show (([0] : Bytes) ++ r) = writeU8 0 ++ r from rfl, readU8_write 0 r (by norm_num)]
  · show readBool ([1] ++ r) = Except.ok (true, r)
    unfold readBool
    rw [show (([1] : Bytes) ++ r) = writeU8 1 ++ r from rfl, readU8_write 1 r (by norm_num)]

theorem readBool_inv {b : Bytes} {v : Bool} {r : Bytes}
    (h : readBool b = Except.ok (v, r)) (hwf : WFBytes b) :
    writeBool v ++ r = b := by
  unfold readBool at h
  cases hu : readU8 b with
  | error e => rw [hu] at h; cases h
  | ok p =>
    rw [hu] at h
    obtain ⟨n, r'⟩ := p
    try dsimp only at h
    obtain ⟨hb, _⟩ := readU8_inv hu hwf
    match n, h with
    | 0, h => cases h; simpa [writeBool, writeU8] using hb
    | 1, h => cases h; simpa [writeBool, writeU8] using hb

theorem readHash_write (h : Bytes) (r : Bytes) (hlen : h.length = 32) :
    readHash (h ++ r) = Except.ok (h, r) := by
  unfold readHash
  exact readBytesN_len 32 h r hlen

theorem readHash_inv {b x r : Bytes} (h : readHash b = Except.ok (x, r)) :
    x ++ r = b ∧ x.length = 32 :=
  readBytesN_inv h

theorem readOptionalHash_write (o : Option Bytes) (r : Bytes)
    (hwf : WFOptionalHash o) :
    readOptionalHash (writeOptionalHash o ++ r) = Except.ok (o, r) := by
  cases o with
  | none =>
    unfold readOptionalHash writeOptionalHash
    rw [show ((([0] : Bytes)) ++ r : Bytes) = writeU8 0 ++ r from rfl,
      readU8_write 0 r (by norm_num)]
  | some hsh =>
    unfold readOptionalHash writeOptionalHash
    rw [show ((1 :: hsh : Bytes) ++ r : Bytes) = writeU8 1 ++ (hsh ++ r) from by
        simp [writeU8],
      readU8_write 1 (hsh ++ r) (by norm_num)]
    dsimp only
    rw [readHash_write hsh r hwf]

theorem readOptionalHash_inv {b : Bytes} {o : Option Bytes} {r : Bytes}
    (h : readOptionalHash b = Except.ok (o, r)) (hwf : WFBytes b) :
    writeOptionalHash o ++ r = b ∧ WFOptionalHash o := by
  unfold readOptionalHash at h
  cases hu : readU8 b with
  | error e => rw [hu] at h; cases h
  | ok p =>
    rw [hu] at h
    obtain ⟨n, r'⟩ := p
    try dsimp only at h
    obtain ⟨hb, _⟩ := readU8_inv hu hwf
    match n, h with
    | 0, h =>
      cases h
      refine ⟨?_, trivial⟩
      simpa [writeOptionalHash, writeU8] using hb
    | 1, h =>
      have h2 : (match readHash r' with
          | Except.ok (hsh, r2) => Except.ok (some hsh, r2)
          | Except.error e => Except.error e) = Except.ok (o, r) := h
      cases hh : readHash r' with
      | error e => rw [hh] at h2; cases h2
      | ok q =>
        rw [hh] at h2
        obtain ⟨hsh, r''⟩ := q
        cases h2
        obtain ⟨hr, hl⟩ := readHash_inv hh
        refine ⟨?_, hl⟩
        rw [← hb, ← hr]
        simp [writeOptionalHash, writeU8]

theorem readVarBytes_write (d : Bytes) (r : Bytes) (hlen : d.length < 2 ^ 32) :
    readVarBytes (writeVarBytes d ++ r) = Except.ok (d, r) := by
  unfold readVarBytes writeVarBytes
  rw [List.append_assoc, readU32_write d.length (d ++ r) hlen]
  dsimp only
  exact readBytesN_len d.length d r rfl

theorem readVarBytes_inv {b d r : Bytes}
    (h : readVarBytes b = Except.ok (d, r)) (hwf : WFBytes b) :
    writeVarBytes d ++ r = b ∧ d.length < 2 ^ 32 := by
  unfold readVarBytes at h
  cases hu : readU32 b with
  | error e => rw [hu] at h; cases h
  | ok p =>
    rw [hu] at h
    obtain ⟨len, r'⟩ := p
    dsimp only at h
    obtain ⟨hb, hlen32⟩ := readU32_inv hu hwf
    obtain ⟨hdr, hdlen⟩ := readBytesN_inv h
    subst hdlen
    constructor
    · rw [← hb, ← hdr]
      simp [writeVarBytes]
    · exact hlen32

theorem readString_write (d : Bytes) (r : Bytes) (hlen : d.length < 2 ^ 32)
    (hutf : validUtf8 d = true) :
    readString (writeVarBytes d ++ r) = Except.ok (d, r) := by
  unfold readString
  rw [readVarBytes_write d r hlen]
  dsimp only
  rw [if_pos hutf]

theorem readString_inv {b d r : Bytes}
    (h : readString b = Except.ok (d, r)) (hwf : WFBytes b) :
    writeVarBytes d ++ r = b ∧ d.length < 2 ^ 32 ∧ validUtf8 d = true := by
  unfold readString at h
  cases hv : readVarBytes b with
  | error e => rw [hv] at h; cases h
  | ok p =>
    rw [hv] at h
    obtain ⟨d', r''⟩ := p
    dsimp only at h
    split_ifs at h with hutf
    cases h
    obtain ⟨hb, hlen⟩ := readVarBytes_inv hv hwf
    exact ⟨hb, hlen, hutf⟩

theorem readN_write {α : Type} (dec : Bytes → Except ExecError (α × Bytes))
    (enc : α → Bytes) :
    ∀ (xs : List α) (r : Bytes),
      (∀ x ∈ xs, ∀ r', dec (enc x ++ r') = Except.ok (x, r')) →
      readN dec xs.length (joinMap enc xs ++ r) = Except.ok (xs, r)
  | [], r, _ => by simp [readN, joinMap]
  | x :: rest, r, hel => by
    simp only [joinMap, List.length_cons, readN, List.append_assoc]
    rw [hel x (by simp) (joinMap enc rest ++ r)]
    dsimp only
    rw [readN_write dec enc rest r (fun y hy => hel y (by simp [hy]))]

theorem readN_inv {α : Type} (dec : Bytes → Except ExecError (α × Bytes))
    (enc : α → Bytes) (Q : α → Prop)
    (P : ∀ {b : Bytes} {x : α} {r : Bytes},
      dec b = Except.ok (x, r) → WFBytes b → enc x ++ r = b ∧ Q x) :
    ∀ (n : Nat) (b : Bytes) (xs : List α) (r : Bytes),
      readN dec n b = Except.ok (xs, r) → WFBytes b →
      joinMap enc xs ++ r = b ∧ xs.length = n ∧ ∀ x ∈ xs, Q x
  | 0, b, xs, r, h, _ => by
    unfold readN at h
    cases h
    simp [joinMap]
  | n + 1, b, xs, r, h, hwf => by
    unfold readN at h
    cases hd : dec b with
    | error e => rw [hd] at h; cases h
    | ok p =>
      rw [hd] at h
      obtain ⟨x, r'⟩ := p
      dsimp only at h
      cases hrest : readN dec n r' with
      | error e => rw [hrest] at h; cases h
      | ok q =>
        rw [hrest] at h
        obtain ⟨ys, r''⟩ := q
        cases h
        obtain ⟨hb, hq⟩ := P hd hwf
        have hwf' : WFBytes r' := by
          rw [← hb] at hwf
          exact WFBytes_append_right hwf
        obtain ⟨hjoin, hlen, hall⟩ := readN_inv dec enc Q P n r' ys r hrest hwf'
        refine ⟨?_, by simp [hlen], ?_⟩
        · rw [← hb, ← hjoin]
          simp [joinMap]
        · intro z hz
          rcases List.mem_cons.mp hz with hh | hh
          · exact hh ▸ hq
          · exact hall z hh

theorem except_bind_ok {α β : Type} {m : Except ExecError α}
    {f : α → Except ExecError β} {y : β}
    (h : m >>= f = Except.ok y) :
    ∃ a, m = Except.ok a ∧ f a = Except.ok y := by
  cases m with
  | ok a => exact ⟨a, rfl, h⟩
  | error e => exact absurd h (by simp [Bind.bind, Except.bind])

theorem statusToU8_lt (s : ExecutionStatus) : s.toU8 < 256 := by
  cases s <;> norm_num [ExecutionStatus.toU8]

theorem from_u8_toU8 (s : ExecutionStatus) :
    ExecutionStatus.from_u8 s.toU8 = some s := by
  cases s <;> rfl

theorem from_u8_toU8_inv : ∀ {sb : Nat} {s : ExecutionStatus},
    ExecutionStatus.from_u8 sb = some s → s.toU8 = sb := by
  intro sb s h
  match sb, h with
  | 0, h => cases h; rfl
  | 1, h => cases h; rfl
  | 2, h => cases h; rfl
  | 3, h => cases h; rfl
  | n + 4, h => cases h

/-! ### Round trip, encode-then-decode direction -/

theorem decodeReceiptR_write (rc : Receipt) (r : Bytes) (hwf : WFReceipt rc) :
    decodeReceiptR (encode_receipt rc ++ r) = Except.ok (rc, r) := by
  obtain ⟨h1, h2, h3, h4⟩ := hwf
  simp only [decodeReceiptR, encode_receipt, List.append_assoc, bind, Except.bind,
    pure, Except.pure, readU32_write _ _ h1, readBool_write, readU64_write _ _ h2,
    readU32_write _ _ h3, readVarBytes_write _ _ h4]

theorem decodeAttributeR_write (a : EventAttribute) (r : Bytes)
    (hwf : WFEventAttribute a) :
    decodeAttributeR ((writeVarBytes a.key ++ writeVarBytes a.value) ++ r) =
      Except.ok (a, r) := by
  obtain ⟨h1, h2, h3⟩ := hwf
  simp only [decodeAttributeR, List.append_assoc, bind, Except.bind, pure,
    Except.pure, readString_write _ _ h1 h2, readVarBytes_write _ _ h3]

theorem decodeEventR_write (e : Event) (r : Bytes) (hwf : WFEvent e) :
    decodeEventR (encode_event e ++ r) = Except.ok (e, r) := by
  obtain ⟨h1, h2, h3, h4, h5⟩ := hwf
  have hattrs := readN_write decodeAttributeR
    (fun attr => writeVarBytes attr.key ++ writeVarBytes attr.value)
    e.attributes r (fun a ha r' => decodeAttributeR_write a r' (h5 a ha))
  simp only [decodeEventR, encode_event, List.append_assoc, bind, Except.bind,
    pure, Except.pure, readU32_write _ _ h1, readString_write _ _ h2 h3,
    readU32_write _ _ h4, hattrs]

theorem decodeLogLineR_write (l : LogLine) (r : Bytes) (hwf : WFLogLine l) :
    decodeLogLineR (encode_log_line l ++ r) = Except.ok (l, r) := by
  obtain ⟨h1, h2, h3⟩ := hwf
  simp only [decodeLogLineR, encode_log_line, List.append_assoc, bind,
    Except.bind, pure, Except.pure, readU32_write _ _ h1,
    readString_write _ _ h2 h3]

theorem decodeExecutionRequestR_write (req : ExecutionRequest) (r : Bytes)
    (hwf : WFRequest req) :
    decodeExecutionRequestR (encode_execution_request req ++ r) =
      Except.ok (req, r) := by
  obtain ⟨h1, h2, h3, h4, h5, h6, h7, h8, h9, h10, h11, h12⟩ := hwf
  have htxs := readN_write readVarBytes writeVarBytes req.transactions
    (writeU64 req.limits.gas_limit ++ (writeU32 req.limits.max_events ++
      (writeU32 req.limits.max_write_bytes ++
        (writeOptionalHash req.execution_seed ++ r))))
    (fun tx htx r' => readVarBytes_write tx r' (h8 tx htx))
  simp only [decodeExecutionRequestR, encode_execution_request,
    List.append_assoc, bind, Except.bind, pure, Except.pure,
    readU32_write _ _ h1, readVarBytes_write _ _ h2, readU64_write _ _ h3,
    readU64_write _ _ h4, readHash_write _ _ h5, readHash_write _ _ h6,
    readU32_write _ _ h7, htxs, readU64_write _ _ h9, readU32_write _ _ h10,
    readU32_write _ _ h11, readOptionalHash_write _ _ h12]

theorem decodeExecutionResponseR_write (resp : ExecutionResponse) (r : Bytes)
    (hwf : WFResponse resp) :
    decodeExecutionResponseR (encode_execution_response resp ++ r) =
      Except.ok (resp, r) := by
  obtain ⟨h1, h2, h3, h4, h5, h6, h7, h8, h9⟩ := hwf
  have hreceipts := readN_write decodeReceiptR encode_receipt resp.receipts
    (writeU32 resp.events.length ++ (joinMap encode_event resp.events ++
      (writeU32 resp.logs.length ++ (joinMap encode_log_line resp.logs ++ r))))
    (fun rc hrc r' => decodeReceiptR_write rc r' (h5 rc hrc))
  have hevents := readN_write decodeEventR encode_event resp.events
    (writeU32 resp.logs.length ++ (joinMap encode_log_line resp.logs ++ r))
    (fun e he r' => decodeEventR_write e r' (h7 e he))
  have hlogs := readN_write decodeLogLineR encode_log_line resp.logs r
    (fun l hl r' => decodeLogLineR_write l r' (h9 l hl))
  simp only [decodeExecutionResponseR, encode_execution_response,
    List.append_assoc, bind, Except.bind, pure, Except.pure,
    readU32_write _ _ h1, readU8_write _ _ (statusToU8_lt resp.status),
    from_u8_toU8, readHash_write _ _ h2, readU64_write _ _ h3,
    readU32_write _ _ h4, hreceipts, readU32_write _ _ h6, hevents,
    readU32_write _ _ h8, hlogs]

theorem decodeExecutionContextR_write (ctx : ExecutionContext) (r : Bytes)
    (hwf : WFContext ctx) :
    decodeExecutionContextR (encode_execution_context ctx ++ r) =
      Except.ok (ctx, r) := by
  obtain ⟨h1, h2, h3, h4, h5, h6, h7, h8, h9⟩ := hwf
  simp only [decodeExecutionContextR, encode_execution_context,
    List.append_assoc, bind, Except.bind, pure, Except.pure,
    readVarBytes_write _ _ h1, readU64_write _ _ h2, readU64_write _ _ h3,
    readHash_write _ _ h4, readU64_write _ _ h5, readU32_write _ _ h6,
    readU32_write _ _ h7, readU32_write _ _ h8, readOptionalHash_write _ _ h9]

/-! ### Round trip, decode-then-encode direction -/

theorem decodeReceiptR_inv {b : Bytes} {rc : Receipt} {r : Bytes}
    (h : decodeReceiptR b = Except.ok (rc, r)) (hwf : WFBytes b) :
    encode_receipt rc ++ r = b ∧ WFReceipt rc := by
  unfold decodeReceiptR at h
  obtain ⟨⟨tx_index, b1⟩, hm1, h⟩ := except_bind_ok h
  dsimp only at h
  obtain ⟨⟨success, b2⟩, hm2, h⟩ := except_bind_ok h
  dsimp only at h
  obtain ⟨⟨gas_used, b3⟩, hm3, h⟩ := except_bind_ok h
  dsimp only at h
  obtain ⟨⟨result_code, b4⟩, hm4, h⟩ := except_bind_ok h
  dsimp only at h
  obtain ⟨⟨return_data, b5⟩, hm5, h⟩ := except_bind_ok h
  dsimp only at h
  cases h
  obtain ⟨e1, w1⟩ := readU32_inv hm1 hwf
  have hwf1 : WFBytes b1 := WFBytes_append_right (e1 ▸ hwf)
  have e2 := readBool_inv hm2 hwf1
  have hwf2 : WFBytes b2 := WFBytes_append_right (e2 ▸ hwf1)
  obtain ⟨e3, w3⟩ := readU64_inv hm3 hwf2
  have hwf3 : WFBytes b3 := WFBytes_append_right (e3 ▸ hwf2)
  obtain ⟨e4, w4⟩ := readU32_inv hm4 hwf3
  have hwf4 : WFBytes b4 := WFBytes_append_right (e4 ▸ hwf3)
  obtain ⟨e5, w5⟩ := readVarBytes_inv hm5 hwf4
  constructor
  · rw [← e1, ← e2, ← e3, ← e4, ← e5]
    simp [encode_receipt]
  · exact ⟨w1, w3, w4, w5⟩

theorem decodeAttributeR_inv {b : Bytes} {a : EventAttribute} {r : Bytes}
    (h : decodeAttributeR b = Except.ok (a, r)) (hwf : WFBytes b) :
    (writeVarBytes a.key ++ writeVarBytes a.value) ++ r = b ∧
      WFEventAttribute a := by
  unfold decodeAttributeR at h
  obtain ⟨⟨key, b1⟩, hm1, h⟩ := except_bind_ok h
  dsimp only at h
  obtain ⟨⟨value, b2⟩, hm2, h⟩ := except_bind_ok h
  dsimp only at h
  cases h
  obtain ⟨e1, w1, wu1⟩ := readString_inv hm1 hwf
  have hwf1 : WFBytes b1 := WFBytes_append_right (e1 ▸ hwf)
  obtain ⟨e2, w2⟩ := readVarBytes_inv hm2 hwf1
  constructor
  · rw [← e1, ← e2]
    simp
  · exact ⟨w1, wu1, w2⟩

theorem decodeEventR_inv {b : Bytes} {ev : Event} {r : Bytes}
    (h : decodeEventR b = Except.ok (ev, r)) (hwf : WFBytes b) :
    encode_event ev ++ r = b ∧ WFEvent ev := by
  unfold decodeEventR at h
  obtain ⟨⟨tx_index, b1⟩, hm1, h⟩ := except_bind_ok h
  dsimp only at h
  obtain ⟨⟨event_type, b2⟩, hm2, h⟩ := except_bind_ok h
  dsimp only at h
  obtain ⟨⟨attr_count, b3⟩, hm3, h⟩ := except_bind_ok h
  dsimp only at h
  obtain ⟨⟨attributes, b4⟩, hm4, h⟩ := except_bind_ok h
  dsimp only at h
  cases h
  obtain ⟨e1, w1⟩ := readU32_inv hm1 hwf
  have hwf1 : WFBytes b1 := WFBytes_append_right (e1 ▸ hwf)
  obtain ⟨e2, w2, wu2⟩ := readString_inv hm2 hwf1
  have hwf2 : WFBytes b2 := WFBytes_append_right (e2 ▸ hwf1)
  obtain ⟨e3, w3⟩ := readU32_inv hm3 hwf2
  have hwf3 : WFBytes b3 := WFBytes_append_right (e3 ▸ hwf2)
  obtain ⟨e4, w4, wall⟩ := readN_inv decodeAttributeR
    (fun attr => writeVarBytes attr.key ++ writeVarBytes attr.value)
    WFEventAttribute (fun hdec hwfb => decodeAttributeR_inv hdec hwfb)
    attr_count b3 attributes r hm4 hwf3
  refine ⟨?_, ?_⟩
  · rw [← e1, ← e2, ← e3, ← e4]
    simp [encode_event, w4]
  · exact ⟨w1, w2, wu2, w4 ▸ w3, wall⟩

theorem decodeLogLineR_inv {b : Bytes} {l : LogLine} {r : Bytes}
    (h : decodeLogLineR b = Except.ok (l, r)) (hwf : WFBytes b) :
    encode_log_line l ++ r = b ∧ WFLogLine l := by
  unfold decodeLogLineR at h
  obtain ⟨⟨level, b1⟩, hm1, h⟩ := except_bind_ok h
  dsimp only at h
  obtain ⟨⟨message, b2⟩, hm2, h⟩ := except_bind_ok h
  dsimp only at h
  cases h
  obtain ⟨e1, w1⟩ := readU32_inv hm1 hwf
  have hwf1 : WFBytes b1 := WFBytes_append_right (e1 ▸ hwf)
  obtain ⟨e2, w2, wu2⟩ := readString_inv hm2 hwf1
  constructor
  · rw [← e1, ← e2]
    simp [encode_log_line]
  · exact ⟨w1, w2, wu2⟩

theorem decodeExecutionRequestR_inv {b : Bytes} {req : ExecutionRequest}
    {r : Bytes}
    (h : decodeExecutionRequestR b = Except.ok (req, r)) (hwf : WFBytes b) :
    encode_execution_request req ++ r = b ∧ WFRequest req := by
  unfold decodeExecutionRequestR at h
  obtain ⟨⟨api_version, b1⟩, hm1, h⟩ := except_bind_ok h
  dsimp only at h
  obtain ⟨⟨chain_id, b2⟩, hm2, h⟩ := except_bind_ok h
  dsimp only at h
  obtain ⟨⟨block_height, b3⟩, hm3, h⟩ := except_bind_ok h
  dsimp only at h
  obtain ⟨⟨block_time, b4⟩, hm4, h⟩ := except_bind_ok h
  dsimp only at h
  obtain ⟨⟨block_hash, b5⟩, hm5, h⟩ := except_bind_ok h
  dsimp only at h
  obtain ⟨⟨prev_state_root, b6⟩, hm6, h⟩ := except_bind_ok h
  dsimp only at h
  obtain ⟨⟨tx_count, b7⟩, hm7, h⟩ := except_bind_ok h
  dsimp only at h
  obtain ⟨⟨transactions, b8⟩, hm8, h⟩ := except_bind_ok h
  dsimp only at h
  obtain ⟨⟨gas_limit, b9⟩, hm9, h⟩ := except_bind_ok h
  dsimp only at h
  obtain ⟨⟨max_events, b10⟩, hm10, h⟩ := except_bind_ok h
  dsimp only at h
  obtain ⟨⟨max_write_bytes, b11⟩, hm11, h⟩ := except_bind_ok h
  dsimp only at h
  obtain ⟨⟨execution_seed, b12⟩, hm12, h⟩ := except_bind_ok h
  dsimp only at h
  cases h
  obtain ⟨e1, w1⟩ := readU32_inv hm1 hwf
  have hwf1 : WFBytes b1 := WFBytes_append_right (e1 ▸ hwf)
  obtain ⟨e2, w2⟩ := readVarBytes_inv hm2 hwf1
  have hwf2 : WFBytes b2 := WFBytes_append_right (e2 ▸ hwf1)
  obtain ⟨e3, w3⟩ := readU64_inv hm3 hwf2
  have hwf3 : WFBytes b3 := WFBytes_append_right (e3 ▸ hwf2)
  obtain ⟨e4, w4⟩ := readU64_inv hm4 hwf3
  have hwf4 : WFBytes b4 := WFBytes_append_right (e4 ▸ hwf3)
  obtain ⟨e5, w5⟩ := readHash_inv hm5
  have hwf5 : WFBytes b5 := WFBytes_append_right (e5 ▸ hwf4)
  obtain ⟨e6, w6⟩ := readHash_inv hm6
  have hwf6 : WFBytes b6 := WFBytes_append_right (e6 ▸ hwf5)
  obtain ⟨e7, w7⟩ := readU32_inv hm7 hwf6
  have hwf7 : WFBytes b7 := WFBytes_append_right (e7 ▸ hwf6)
  obtain ⟨e8, w8, wall8⟩ := readN_inv readVarBytes writeVarBytes
    (fun tx => tx.length < 2 ^ 32) (fun hdec hwfb => readVarBytes_inv hdec hwfb)
    tx_count b7 transactions b8 hm8 hwf7
  have hwf8 : WFBytes b8 := WFBytes_append_right (e8 ▸ hwf7)
  obtain ⟨e9, w9⟩ := readU64_inv hm9 hwf8
  have hwf9 : WFBytes b9 := WFBytes_append_right (e9 ▸ hwf8)
  obtain ⟨e10, w10⟩ := readU32_inv hm10 hwf9
  have hwf10 : WFBytes b10 := WFBytes_append_right (e10 ▸ hwf9)
  obtain ⟨e11, w11⟩ := readU32_inv hm11 hwf10
  have hwf11 : WFBytes b11 := WFBytes_append_right (e11 ▸ hwf10)
  obtain ⟨e12, w12⟩ := readOptionalHash_inv hm12 hwf11
  constructor
  · rw [← e1, ← e2, ← e3, ← e4, ← e5, ← e6, ← e7, ← e8, ← e9, ← e10, ← e11,
      ← e12]
    simp [encode_execution_request, w8]
  · exact ⟨w1, w2, w3, w4, w5, w6, w8 ▸ w7, wall8, w9, w10, w11, w12⟩

theorem decodeExecutionContextR_inv {b : Bytes} {ctx : ExecutionContext}
    {r : Bytes}
    (h : decodeExecutionContextR b = Except.ok (ctx, r)) (hwf : WFBytes b) :
    encode_execution_context ctx ++ r = b ∧ WFContext ctx := by
  unfold decodeExecutionContextR at h
  obtain ⟨⟨chain_id, b1⟩, hm1, h⟩ := except_bind_ok h
  dsimp only at h
  obtain ⟨⟨block_height, b2⟩, hm2, h⟩ := except_bind_ok h
  dsimp only at h
  obtain ⟨⟨block_time, b3⟩, hm3, h⟩ := except_bind_ok h
  dsimp only at h
  obtain ⟨⟨block_hash, b4⟩, hm4, h⟩ := except_bind_ok h
  dsimp only at h
  obtain ⟨⟨gas_limit, b5⟩, hm5, h⟩ := except_bind_ok h
  dsimp only at h
  obtain ⟨⟨max_events, b6⟩, hm6, h⟩ := except_bind_ok h
  dsimp only at h
  obtain ⟨⟨max_write_bytes, b7⟩, hm7, h⟩ := except_bind_ok h
  dsimp only at h
  obtain ⟨⟨api_version, b8⟩, hm8, h⟩ := except_bind_ok h
  dsimp only at h
  obtain ⟨⟨execution_seed, b9⟩, hm9, h⟩ := except_bind_ok h
  dsimp only at h
  cases h
  obtain ⟨e1, w1⟩ := readVarBytes_inv hm1 hwf
  have hwf1 : WFBytes b1 := WFBytes_append_right (e1 ▸ hwf)
  obtain ⟨e2, w2⟩ := readU64_inv hm2 hwf1
  have hwf2 : WFBytes b2 := WFBytes_append_right (e2 ▸ hwf1)
  obtain ⟨e3, w3⟩ := readU64_inv hm3 hwf2
  have hwf3 : WFBytes b3 := WFBytes_append_right (e3 ▸ hwf2)
  obtain ⟨e4, w4⟩ := readHash_inv hm4
  have hwf4 : WFBytes b4 := WFBytes_append_right (e4 ▸ hwf3)
  obtain ⟨e5, w5⟩ := readU64_inv hm5 hwf4
  have hwf5 : WFBytes b5 := WFBytes_append_right (e5 ▸ hwf4)
  obtain ⟨e6, w6⟩ := readU32_inv hm6 hwf5
  have hwf6 : WFBytes b6 := WFBytes_append_right (e6 ▸ hwf5)
  obtain ⟨e7, w7⟩ := readU32_inv hm7 hwf6
  have hwf7 : WFBytes b7 := WFBytes_append_right (e7 ▸ hwf6)
  obtain ⟨e8, w8⟩ := readU32_inv hm8 hwf7
  have hwf8 : WFBytes b8 := WFBytes_append_right (e8 ▸ hwf7)
  obtain ⟨e9, w9⟩ := readOptionalHash_inv hm9 hwf8
  constructor
  · rw [← e1, ← e2, ← e3, ← e4, ← e5, ← e6, ← e7, ← e8, ← e9]
    simp [encode_execution_context]
  · exact ⟨w1, w2, w3, w4, w5, w6, w7, w8, w9⟩

theorem decodeExecutionResponseR_inv {b : Bytes} {resp : ExecutionResponse}
    {r : Bytes}
    (h : decodeExecutionResponseR b = Except.ok (resp, r)) (hwf : WFBytes b) :
    encode_execution_response resp ++ r = b ∧ WFResponse resp := by
  unfold decodeExecutionResponseR at h
  obtain ⟨⟨api_version, b1⟩, hm1, h⟩ := except_bind_ok h
  dsimp only at h
  obtain ⟨⟨status_byte, b2⟩, hm2, h⟩ := except_bind_ok h
  dsimp only at h
  cases hs : ExecutionStatus.from_u8 status_byte with
  | none =>
    rw [hs] at h
    exact absurd h (by simp [throw, throwThe, MonadExceptOf.throw])
  | some status =>
    rw [hs] at h
    dsimp only at h
    obtain ⟨⟨new_state_root, b3⟩, hm3, h⟩ := except_bind_ok h
    dsimp only at h
    obtain ⟨⟨gas_used, b4⟩, hm4, h⟩ := except_bind_ok h
    dsimp only at h
    obtain ⟨⟨receipt_count, b5⟩, hm5, h⟩ := except_bind_ok h
    dsimp only at h
    obtain ⟨⟨receipts, b6⟩, hm6, h⟩ := except_bind_ok h
    dsimp only at h
    obtain ⟨⟨event_count, b7⟩, hm7, h⟩ := except_bind_ok h
    dsimp only at h
    obtain ⟨⟨events, b8⟩, hm8, h⟩ := except_bind_ok h
    dsimp only at h
    obtain ⟨⟨log_count, b9⟩, hm9, h⟩ := except_bind_ok h
    dsimp only at h
    obtain ⟨⟨logs, b10⟩, hm10, h⟩ := except_bind_ok h
    dsimp only at h
    cases h
    obtain ⟨e1, w1⟩ := readU32_inv hm1 hwf
    have hwf1 : WFBytes b1 := WFBytes_append_right (e1 ▸ hwf)
    obtain ⟨e2, w2⟩ := readU8_inv hm2 hwf1
    have hwf2 : WFBytes b2 := WFBytes_append_right (e2 ▸ hwf1)
    obtain ⟨e3, w3⟩ := readHash_inv hm3
    have hwf3 : WFBytes b3 := WFBytes_append_right (e3 ▸ hwf2)
    obtain ⟨e4, w4⟩ := readU64_inv hm4 hwf3
    have hwf4 : WFBytes b4 := WFBytes_append_right (e4 ▸ hwf3)
    obtain ⟨e5, w5⟩ := readU32_inv hm5 hwf4
    have hwf5 : WFBytes b5 := WFBytes_append_right (e5 ▸ hwf4)
    obtain ⟨e6, w6, wall6⟩ := readN_inv decodeReceiptR encode_receipt
      WFReceipt (fun hdec hwfb => decodeReceiptR_inv hdec hwfb)
      receipt_count b5 receipts b6 hm6 hwf5
    have hwf6 : WFBytes b6 := WFBytes_append_right (e6 ▸ hwf5)
    obtain ⟨e7, w7⟩ := readU32_inv hm7 hwf6
    have hwf7 : WFBytes b7 := WFBytes_append_right (e7 ▸ hwf6)
    obtain ⟨e8, w8, wall8⟩ := readN_inv decodeEventR encode_event
      WFEvent (fun hdec hwfb => decodeEventR_inv hdec hwfb)
      event_count b7 events b8 hm8 hwf7
    have hwf8 : WFBytes b8 := WFBytes_append_right (e8 ▸ hwf7)
    obtain ⟨e9, w9⟩ := readU32_inv hm9 hwf8
    have hwf9 : WFBytes b9 := WFBytes_append_right (e9 ▸ hwf8)
    obtain ⟨e10, w10, wall10⟩ := readN_inv decodeLogLineR encode_log_line
      WFLogLine (fun hdec hwfb => decodeLogLineR_inv hdec hwfb)
      log_count b9 logs r hm10 hwf9
    constructor
    · rw [← e1, ← e2, ← e3, ← e4, ← e5, ← e6, ← e7, ← e8, ← e9, ← e10]
      simp [encode_execution_response, from_u8_toU8_inv hs, w6, w8, w10]
    · exact ⟨w1, w3, w4, w6 ▸ w5, wall6, w8 ▸ w7, wall8, w10 ▸ w9, wall10⟩

/-- C5: the codec round-trips; in the decode-then-encode direction only up
to the bytes the decoder actually consumed: re-encoding a decoded value
reproduces the consumed prefix of the input, and any trailing bytes are
ignored rather than rejected, so `encode (decode b) = b` fails on inputs
with trailing bytes. -/
theorem C5_codec_round_trip :
    (∀ x : ExecutionRequest, WFRequest x →
      decode_execution_request (encode_execution_request x) = Except.ok x) ∧
    (∀ x : ExecutionResponse, WFResponse x →
      decode_execution_response (encode_execution_response x) = Except.ok x) ∧
    (∀ x : ExecutionContext, WFContext x →
      decode_execution_context (encode_execution_context x) = Except.ok x) ∧
    (∀ x : Event, WFEvent x →
      decode_single_event (encode_single_event x) = Except.ok x) ∧
    (∀ b x rest, WFBytes b → decodeExecutionRequestR b = Except.ok (x, rest) →
      encode_execution_request x ++ rest = b) ∧
    (∀ b x rest, WFBytes b → decodeExecutionResponseR b = Except.ok (x, rest) →
      encode_execution_response x ++ rest = b) ∧
    (∀ b x rest, WFBytes b → decodeExecutionContextR b = Except.ok (x, rest) →
      encode_execution_context x ++ rest = b) ∧
    (∀ b x rest, WFBytes b → decodeEventR b = Except.ok (x, rest) →
      encode_event x ++ rest = b) := by
  refine ⟨?_, ?_, ?_, ?_, ?_, ?_, ?_, ?_⟩
  · intro x hwf
    have h := decodeExecutionRequestR_write x [] hwf
    rw [List.append_nil] at h
    simp [decode_execution_request, h]
  · intro x hwf
    have h := decodeExecutionResponseR_write x [] hwf
    rw [List.append_nil] at h
    simp [decode_execution_response, h]
  · intro x hwf
    have h := decodeExecutionContextR_write x [] hwf
    rw [List.append_nil] at h
    simp [decode_execution_context, h]
  · intro x hwf
    have h := decodeEventR_write x [] hwf
    rw [List.append_nil] at h
    simp [decode_single_event, encode_single_event, h]
  · intro b x rest hwfb hdec
    exact (decodeExecutionRequestR_inv hdec hwfb).1
  · intro b x rest hwfb hdec
    exact (decodeExecutionResponseR_inv hdec hwfb).1
  · intro b x rest hwfb hdec
    exact (decodeExecutionContextR_inv hdec hwfb).1
  · intro b x rest hwfb hdec
    exact (decodeEventR_inv hdec hwfb).1

set_option maxRecDepth 100000 in
/-- C5 counterexample to the literal claim: the decoders ignore trailing
bytes, so `decode_execution_request` accepts 110 zero bytes but the
re-encoding of the decoded request is only 109 bytes long. -/
theorem C5_trailing_bytes_counterexample :
    (decode_execution_request c5Bytes).toOption = some c5Req ∧
    encode_execution_request c5Req ≠ c5Bytes := by
  constructor
  · decide
  · decide

set_option maxRecDepth 100000 in
theorem C5_codec_round_trip_witness :
    decode_execution_request (encode_execution_request c5Req) = Except.ok c5Req ∧
    encode_execution_request c5Req ++ [] = encode_execution_request c5Req :=
  ⟨C5_codec_round_trip.1 c5Req
      (by unfold WFRequest
          refine ⟨by decide, by decide, by decide, by decide, by rfl, by rfl,
            by decide, ?_, by decide, by decide, by decide, trivial⟩
          intro t ht
          cases ht),
    C5_codec_round_trip.2.2.2.2.1 (encode_execution_request c5Req) c5Req []
      (by show ∀ x ∈ encode_execution_request c5Req, x < 256; decide)
      (by rfl)⟩
